import Mathlib

/-!
# CMAC checksum of `lib/crypto/krb/checksum/cmac.c`

A shallow embedding of the CMAC driver `krb5int_cmac_checksum` and of its
helpers `xor_128`, `leftshift_onebit`, `generate_subkey` and `padding`.

Conventions of the embedding:

* an `unsigned char` is a `Nat` below `256`; a buffer is a `List Nat`;
  stores into an `unsigned char` reduce modulo `256` where the C value can
  exceed a byte;
* an `unsigned int` is a `Nat` reduced modulo `2 ^ 32` after every addition;
* a `krb5_error_code` is an `Int`, `0` meaning success;
* the encryption provider is a record holding `block_size` and the function
  pointer `cbc_mac`, which may be null; the function receives the output
  descriptor by pointer, so it is given `output->length` and answers the
  length it leaves there; every invocation the code makes is appended to a
  trace, so that the number and the arguments of the invocations can be
  stated;
* `assert` is kept: a failing assertion ends the call with the outcome
  `assert_failed`, which carries the source line of the assertion, instead of
  a returned code.
-/

namespace Cmac

/-! ## Data model -/

/-- The macro `BLOCK_SIZE` of cmac.c. -/
def BLOCK_SIZE : Nat := 16

/-- The reduction constant `const_Rb` of cmac.c. -/
def const_Rb : List Nat :=
  [0x00, 0x00, 0x00, 0x00, 0x00, 0x00, 0x00, 0x00,
   0x00, 0x00, 0x00, 0x00, 0x00, 0x00, 0x00, 0x87]

/-- The all-zero constant `const_Zero` of cmac.c. -/
def const_Zero : List Nat :=
  [0x00, 0x00, 0x00, 0x00, 0x00, 0x00, 0x00, 0x00,
   0x00, 0x00, 0x00, 0x00, 0x00, 0x00, 0x00, 0x00]

/-- Modelled from the spec: the block-size mismatch error code
`KRB5_BAD_MSIZE`. Its definition (the krb5 error table) is not among the
sources; the value is the one that table assigns, and only its being
non-zero matters below. -/
def KRB5_BAD_MSIZE : Int := -1765328194

/-- A `krb5_data`: the `length` field and the bytes found at the `data`
pointer. For an output buffer `length` is the capacity the caller announces. -/
structure krb5_data where
  length : Nat
  data : List Nat
deriving DecidableEq, Repr

/-- Modelled from the spec: a `krb5_crypto_iov` segment. The structure and the
macro `SIGN_IOV` that reads its flags word are not among the sources; the spec
describes the flag as saying whether the region contributes to the signed
bytes, so the flags word is kept as that one bit. -/
structure krb5_crypto_iov where
  sign : Bool
  data : krb5_data
deriving DecidableEq, Repr

/-- Modelled from the spec: the macro `SIGN_IOV`, true for a segment flagged as
contributing to the signature. -/
def SIGN_IOV (piov : krb5_crypto_iov) : Bool := piov.sign

/-- A key handle; the driver only passes it through to the provider. -/
abbrev krb5_key := List Nat

/-- The function behind the pointer `cbc_mac` of a provider:
`cbc_mac(key, data, 1, ivec, output)` on one block. `ivec` is `none` for a
null pointer. `output` is a pointer to a `krb5_data` that is not `const`: the
last argument is `output->length` on entry, and the result is the returned
code, the bytes left in the 16-byte buffer at `output->data`, and
`output->length` on return, which the function is free to change. -/
abbrev cbc_mac_fn := krb5_key → List Nat → Option (List Nat) → Nat → Int × List Nat × Nat

/-- The part of `struct krb5_enc_provider` the driver uses: the block size and
the function pointer `cbc_mac`, `none` when the pointer is null. -/
structure krb5_enc_provider where
  block_size : Nat
  cbc_mac : Option cbc_mac_fn

/-- The part of `struct krb5_cksumtypes` the driver uses. -/
structure krb5_cksumtypes where
  enc : krb5_enc_provider

/-- One invocation of the provider's `cbc_mac`: the block passed, the chaining
value passed, `output->length` on entry, the code returned, the bytes written
and `output->length` on return. -/
structure cbc_mac_call where
  data : List Nat
  ivec : Option (List Nat)
  length : Nat
  ret : Int
  out : List Nat
  out_length : Nat
deriving DecidableEq, Repr

/-- How a call of the driver ends: it returns a code, or the `assert` of the
given source line fails. -/
inductive Outcome where
  | returned (ret : Int)
  | assert_failed (line : Nat)
deriving DecidableEq, Repr

/-- What a call of `krb5int_cmac_checksum` leaves behind: how it ended, the
caller's output buffer, and the provider invocations it made, in order. -/
structure cmac_result where
  outcome : Outcome
  output : krb5_data
  calls : List cbc_mac_call
deriving DecidableEq, Repr

/-! ## Block primitives -/

/-- Byte order of the machine, which decides what `load_32_n` reads. -/
inductive ByteOrder where
  | big
  | little
deriving DecidableEq, Repr

/-- Modelled from the spec: `load_32_n`, the native-order load of a 32-bit word
from four bytes. The macro is not among the sources; the spec only says the
XOR is done word-wise, so both byte orders are covered. -/
def load_32_n (bo : ByteOrder) (p : List Nat) : Nat :=
  match bo with
  | .big => p.getD 0 0 * 2 ^ 24 + p.getD 1 0 * 2 ^ 16 + p.getD 2 0 * 2 ^ 8 + p.getD 3 0
  | .little => p.getD 0 0 + p.getD 1 0 * 2 ^ 8 + p.getD 2 0 * 2 ^ 16 + p.getD 3 0 * 2 ^ 24

/-- Modelled from the spec: `store_32_n`, the native-order store of a 32-bit
word into four bytes, the inverse of `load_32_n`. -/
def store_32_n (bo : ByteOrder) (val : Nat) : List Nat :=
  match bo with
  | .big => [val / 2 ^ 24 % 256, val / 2 ^ 16 % 256, val / 2 ^ 8 % 256, val % 256]
  | .little => [val % 256, val / 2 ^ 8 % 256, val / 2 ^ 16 % 256, val / 2 ^ 24 % 256]

/-- The function `xor_128(a, b, out)`: four 32-bit words are loaded from `a` and
`b`, XORed and stored to `out`, for `z = 0 .. 3`. The result is the content
of `out` after the loop. Word `z` of `a` and `b` is read before word `z` of
`out` is written, so the call `xor_128(const_Zero, L, L)` with `out` aliasing
`b` is covered. -/
def xor_128 (bo : ByteOrder) (a b : List Nat) : List Nat :=
  (List.range (BLOCK_SIZE / 4)).foldl
    (fun out z =>
      out ++ store_32_n bo (load_32_n bo (a.drop (z * 4)) ^^^ load_32_n bo (b.drop (z * 4))))
    []

/-- The function `leftshift_onebit(input, output)`: for `i = 15` down to `0`,
`output[i] = (input[i] << 1) | overflow` truncated to a byte, and `overflow`
becomes the top bit of `input[i]`. The state of the fold is the part of
`output` already written and the current `overflow`. -/
def leftshift_onebit (input : List Nat) : List Nat :=
  ((List.range BLOCK_SIZE).foldr
    (fun i (st : List Nat × Nat) =>
      (((input.getD i 0 <<< 1) % 256 ||| st.2) :: st.1,
       if input.getD i 0 &&& 0x80 ≠ 0 then 1 else 0))
    ([], 0)).1

/-- The function `padding(lastb, pad, length)`: byte `j` of `pad` is
`lastb[j]` below `length`, `0x80` at `length` and `0x00` above. -/
def padding (lastb : List Nat) (length : Int) : List Nat :=
  (List.range BLOCK_SIZE).map fun (j : Nat) =>
    if (j : Int) < length then lastb.getD j 0
    else if (j : Int) = length then 0x80
    else 0x00

/-! ## Subkey generation -/

/-- What `generate_subkey` leaves behind: the returned code, the subkeys (only
written when the code is `0`; reported empty otherwise) and the provider
invocation it made. -/
structure subkey_result where
  ret : Int
  K1 : List Nat
  K2 : List Nat
  calls : List cbc_mac_call
deriving DecidableEq, Repr

/-- The function `generate_subkey(enc, key, K1, K2)`. Of `enc` it uses only
`enc->cbc_mac`, which is passed as the function `cbc_mac`: the driver has
asserted the pointer non-null before it calls. The descriptor `d` of line 104
announces `BLOCK_SIZE` bytes at `L`; it is local, and what the provider
leaves in `d.length` is not read again. -/
def generate_subkey (bo : ByteOrder) (cbc_mac : cbc_mac_fn) (key : krb5_key) :
    subkey_result :=
  let Z := List.replicate BLOCK_SIZE 0
  let r := cbc_mac key Z none BLOCK_SIZE
  let calls := [{ data := Z, ivec := none, length := BLOCK_SIZE, ret := r.1, out := r.2.1,
                  out_length := r.2.2 : cbc_mac_call }]
  if r.1 ≠ 0 then
    { ret := r.1, K1 := [], K2 := [], calls := calls }
  else
    let L := xor_128 bo const_Zero r.2.1
    let K1 :=
      if L.getD 0 0 &&& 0x80 = 0 then leftshift_onebit L
      else xor_128 bo (leftshift_onebit L) const_Rb
    let K2 :=
      if K1.getD 0 0 &&& 0x80 = 0 then leftshift_onebit K1
      else xor_128 bo (leftshift_onebit K1) const_Rb
    { ret := 0, K1 := K1, K2 := K2, calls := calls }

/-! ## Block extraction -/

/-- The bytes a segment holds: the first `length` bytes at its `data` pointer. -/
def iov_bytes (piov : krb5_crypto_iov) : List Nat :=
  piov.data.data.take piov.data.length

/-- The signed bytes of a segment list: the concatenation, in list order, of
the bytes of the segments flagged for signing. -/
def signed_bytes : List krb5_crypto_iov → List Nat
  | [] => []
  | piov :: rest =>
    if SIGN_IOV piov then iov_bytes piov ++ signed_bytes rest else signed_bytes rest

/-- Modelled from the spec: the cursor `struct iov_block_state`, which is not
among the sources. The spec only speaks of an internal cursor of a pull-based
chunk source; it is kept as the number of signed bytes already delivered. -/
structure iov_block_state where
  consumed : Nat
deriving DecidableEq, Repr

/-- Modelled from the spec: `IOV_BLOCK_STATE_INIT`, the cursor at the start. -/
def IOV_BLOCK_STATE_INIT : iov_block_state := { consumed := 0 }

/-- Modelled from the spec: the block extractor `krb5int_c_iov_get_block`, which
is not among the sources. It delivers the next `block_size` signed bytes (or
the shorter rest) into the front of `block`, without reordering or repeating
bytes, and advances the cursor; the bytes of `block` behind a short chunk are
left as they were. -/
def krb5int_c_iov_get_block (block : List Nat) (block_size : Nat)
    (data : List krb5_crypto_iov) (iov_state : iov_block_state) :
    List Nat × iov_block_state :=
  let chunk := ((signed_bytes data).drop iov_state.consumed).take block_size
  (chunk ++ block.drop chunk.length, { consumed := iov_state.consumed + chunk.length })

/-! ## The MAC driver -/

/-- Lines 179-184 of cmac.c: the loop summing, in an `unsigned int`, the
`data.length` of the segments for which `SIGN_IOV` holds. -/
def signed_length (data : List krb5_crypto_iov) : Nat :=
  data.foldl
    (fun length piov =>
      if SIGN_IOV piov then (length + piov.data.length) % 2 ^ 32 else length)
    0

/-- The variables live across the block loop of the driver: the code of the
last provider call, the chaining value `Y`, the field `d.length` of the
output descriptor `d` of line 205, the chunk buffer `input`, the extractor's
cursor, and the trace of provider invocations. -/
structure loop_state where
  ret : Int
  Y : List Nat
  d_length : Nat
  input : List Nat
  iov_state : iov_block_state
  calls : List cbc_mac_call
deriving DecidableEq, Repr

/-- Lines 210-216 of cmac.c: `count` iterations of the block loop. Each pulls
a chunk into `input` and calls `cbc_mac` with `ivec` and the output `d` both
on `Y`; the provider is handed `&d` and what it leaves in `d.length` stays
there for the next call. A non-zero code ends the loop (and the driver) at
once. -/
def block_loop (cbc_mac : cbc_mac_fn) (key : krb5_key) (data : List krb5_crypto_iov) :
    Nat → loop_state → loop_state
  | 0, s => s
  | count + 1, s =>
    let gb := krb5int_c_iov_get_block s.input BLOCK_SIZE data s.iov_state
    let r := cbc_mac key gb.1 (some s.Y) s.d_length
    let calls := s.calls ++
      [{ data := gb.1, ivec := some s.Y, length := s.d_length, ret := r.1, out := r.2.1,
         out_length := r.2.2 }]
    if r.1 ≠ 0 then
      { ret := r.1, Y := s.Y, d_length := s.d_length, input := gb.1, iov_state := gb.2,
        calls := calls }
    else
      block_loop cbc_mac key data count
        { ret := 0, Y := r.2.1, d_length := r.2.2, input := gb.1, iov_state := gb.2,
          calls := calls }

/-- The block count `n` of the driver (lines 190-197): `(length + 15) / 16` in
`unsigned int` arithmetic, forced to `1` when that is `0`. -/
def block_count (length : Nat) : Nat :=
  let n := (length + BLOCK_SIZE - 1) % 2 ^ 32 / BLOCK_SIZE
  if n = 0 then 1 else n

/-- The variable `flag` of the driver (lines 190-197): false when the computed
`n` was `0`, otherwise whether `length` is a multiple of 16. -/
def last_block_flag (length : Nat) : Bool :=
  let n := (length + BLOCK_SIZE - 1) % 2 ^ 32 / BLOCK_SIZE
  if n = 0 then false else decide (length % BLOCK_SIZE = 0)

/-- The function `krb5int_cmac_checksum(ctp, key, usage, data, num_data,
output)`. `num_data` is the length of `data`, taken below `2 ^ 32` so that the
`unsigned int` counter of the first loop reaches it. The argument `stack` is
the content of the uninitialised local array `input` on entry. The
descriptor `d` of line 205 announces `BLOCK_SIZE` bytes at `Y` and is handed
to the provider as `&d` at lines 213 and 230; the `d.length` the last call
leaves is what the assertion of line 234 compares `output->length` with, what
line 236 stores and the number of bytes line 237 copies from `Y`. (A
`d.length` above 16 makes that `memcpy` read past the array `Y`; such bytes
are not represented, the copy then holding the bytes of `Y` only.) -/
def krb5int_cmac_checksum (bo : ByteOrder) (ctp : krb5_cksumtypes) (key : krb5_key)
    (_usage : Int) (data : List krb5_crypto_iov) (output : krb5_data)
    (stack : List Nat) : cmac_result :=
  let enc := ctp.enc
  match enc.cbc_mac with
  | none => { outcome := .assert_failed 174, output := output, calls := [] }
  | some cbc_mac =>
    if enc.block_size ≠ BLOCK_SIZE then
      { outcome := .returned KRB5_BAD_MSIZE, output := output, calls := [] }
    else
      let length := signed_length data
      let sk := generate_subkey bo cbc_mac key
      if sk.ret ≠ 0 then
        { outcome := .returned sk.ret, output := output, calls := sk.calls }
      else
        let n := block_count length
        let flag := last_block_flag length
        let Y := List.replicate BLOCK_SIZE 0
        let lp := block_loop cbc_mac key data (n - 1)
          { ret := 0, Y := Y, d_length := BLOCK_SIZE, input := stack,
            iov_state := IOV_BLOCK_STATE_INIT, calls := sk.calls }
        if lp.ret ≠ 0 then
          { outcome := .returned lp.ret, output := output, calls := lp.calls }
        else
          let gb := krb5int_c_iov_get_block lp.input BLOCK_SIZE data lp.iov_state
          let M_last :=
            if flag then xor_128 bo gb.1 sk.K1
            else xor_128 bo (padding gb.1 ((length % BLOCK_SIZE : Nat) : Int)) sk.K2
          let r := cbc_mac key M_last (some lp.Y) lp.d_length
          let calls := lp.calls ++
            [{ data := M_last, ivec := some lp.Y, length := lp.d_length, ret := r.1,
               out := r.2.1, out_length := r.2.2 }]
          if r.1 ≠ 0 then
            { outcome := .returned r.1, output := output, calls := calls }
          else if ¬ (output.length ≥ r.2.2) then
            { outcome := .assert_failed 234, output := output, calls := calls }
          else
            { outcome := .returned 0,
              output := { length := r.2.2,
                          data := r.2.1.take r.2.2 ++ output.data.drop r.2.2 },
              calls := calls }

/-- The state of the driver when its block loop is left (line 216), reached
once the pointer `cbc_mac` was found non-null, the block size was accepted and
the subkeys were generated. -/
def loop_exit (bo : ByteOrder) (cbc_mac : cbc_mac_fn) (key : krb5_key)
    (data : List krb5_crypto_iov) (stack : List Nat) : loop_state :=
  block_loop cbc_mac key data (block_count (signed_length data) - 1)
    { ret := 0, Y := List.replicate BLOCK_SIZE 0, d_length := BLOCK_SIZE, input := stack,
      iov_state := IOV_BLOCK_STATE_INIT, calls := (generate_subkey bo cbc_mac key).calls }

/-- The final chunk: the content of `input` after the pull of line 218. -/
def final_chunk (bo : ByteOrder) (cbc_mac : cbc_mac_fn) (key : krb5_key)
    (data : List krb5_crypto_iov) (stack : List Nat) : List Nat :=
  (krb5int_c_iov_get_block (loop_exit bo cbc_mac key data stack).input BLOCK_SIZE data
    (loop_exit bo cbc_mac key data stack).iov_state).1

/-- The block `M_last` the driver builds at lines 220-226. -/
def M_last (bo : ByteOrder) (cbc_mac : cbc_mac_fn) (key : krb5_key)
    (data : List krb5_crypto_iov) (stack : List Nat) : List Nat :=
  if last_block_flag (signed_length data) then
    xor_128 bo (final_chunk bo cbc_mac key data stack) (generate_subkey bo cbc_mac key).K1
  else
    xor_128 bo
      (padding (final_chunk bo cbc_mac key data stack)
        ((signed_length data % BLOCK_SIZE : Nat) : Int))
      (generate_subkey bo cbc_mac key).K2

/-- The last provider invocation of the driver (line 230): `cbc_mac` on
`M_last` with the chaining value and the `d.length` the block loop left. -/
def final_call (bo : ByteOrder) (cbc_mac : cbc_mac_fn) (key : krb5_key)
    (data : List krb5_crypto_iov) (stack : List Nat) : cbc_mac_call :=
  { data := M_last bo cbc_mac key data stack
    ivec := some (loop_exit bo cbc_mac key data stack).Y
    length := (loop_exit bo cbc_mac key data stack).d_length
    ret := (cbc_mac key (M_last bo cbc_mac key data stack)
      (some (loop_exit bo cbc_mac key data stack).Y)
      (loop_exit bo cbc_mac key data stack).d_length).1
    out := (cbc_mac key (M_last bo cbc_mac key data stack)
      (some (loop_exit bo cbc_mac key data stack).Y)
      (loop_exit bo cbc_mac key data stack).d_length).2.1
    out_length := (cbc_mac key (M_last bo cbc_mac key data stack)
      (some (loop_exit bo cbc_mac key data stack).Y)
      (loop_exit bo cbc_mac key data stack).d_length).2.2 }

/-! ## Reference notions used in the statements -/

/-- Every invocation of the list returned the code `0`. -/
def all_ok (calls : List cbc_mac_call) : Prop := ∀ c ∈ calls, c.ret = 0

/-- Every record of the trace is what the provider answered on the recorded
arguments. -/
def faithful (cbc_mac : cbc_mac_fn) (key : krb5_key) (calls : List cbc_mac_call) : Prop :=
  ∀ c ∈ calls, c.ret = (cbc_mac key c.data c.ivec c.length).1 ∧
    c.out = (cbc_mac key c.data c.ivec c.length).2.1 ∧
    c.out_length = (cbc_mac key c.data c.ivec c.length).2.2

/-- A block: sixteen bytes. -/
def is_block (b : List Nat) : Prop := b.length = 16 ∧ ∀ x ∈ b, x < 256

instance (b : List Nat) : Decidable (is_block b) :=
  inferInstanceAs (Decidable (b.length = 16 ∧ ∀ x ∈ b, x < 256))

/-- Byte-wise XOR of two byte strings. -/
def xor_bytes (a b : List Nat) : List Nat := List.zipWith (· ^^^ ·) a b

/-- The true signed length of a segment list: the sum, without wrap-around, of
the `length` fields of the segments flagged for signing. -/
def signed_total : List krb5_crypto_iov → Nat
  | [] => 0
  | piov :: rest =>
    if SIGN_IOV piov then piov.data.length + signed_total rest else signed_total rest

/-- The block count as the spec words it: `ceil(length / 16)`, or `1` for an
empty message. -/
def spec_block_count (length : Nat) : Nat :=
  if length = 0 then 1 else (length + 15) / 16

/-- The doubling step of `generate_subkey` (lines 118-123 and 125-130):
`leftshift_onebit`, followed by the XOR with `const_Rb` when the top bit of
the first input byte is set. -/
def double_block (bo : ByteOrder) (x : List Nat) : List Nat :=
  if x.getD 0 0 &&& 0x80 = 0 then leftshift_onebit x
  else xor_128 bo (leftshift_onebit x) const_Rb

/-- A block read as a 128-bit big-endian integer. -/
def block_to_nat (b : List Nat) : Nat := b.foldl (fun acc x => acc * 256 + x) 0

/-- The 16 bytes of a 128-bit integer, most significant first. -/
def nat_to_block (v : Nat) : List Nat :=
  (List.range 16).map fun i => v / 256 ^ (15 - i) % 256

/-- Doubling as RFC 4493 defines it on 128-bit strings: shift left by one bit
and XOR `0x87` into the result when the top bit was set. -/
def rfc_dbl (x : List Nat) : List Nat :=
  nat_to_block
    ((2 * block_to_nat x % 2 ^ 128) ^^^ (if 2 ^ 127 ≤ block_to_nat x then 0x87 else 0))

/-- The padding of RFC 4493: the bytes, then `0x80`, then zeros up to 16. -/
def rfc_pad (m : List Nat) : List Nat := m ++ 0x80 :: List.replicate (15 - m.length) 0

/-- The chaining of RFC 4493 over `count` full blocks of `M`:
`C_i = E (C_(i-1) XOR M_i)`, started at `C`. -/
def rfc_chain (E : List Nat → List Nat) : Nat → List Nat → List Nat → List Nat
  | 0, C, _ => C
  | count + 1, C, M => rfc_chain E count (E (xor_bytes C (M.take 16))) (M.drop 16)

/-- The algorithm AES-CMAC of RFC 4493 over a block function `E` and a message
`M`, as the claim words it. -/
def rfc_cmac (E : List Nat → List Nat) (M : List Nat) : List Nat :=
  let L := E (List.replicate 16 0)
  let K1 := rfc_dbl L
  let K2 := rfc_dbl K1
  let n := spec_block_count M.length
  let C := rfc_chain E (n - 1) (List.replicate 16 0) M
  let M_n := M.drop (16 * (n - 1))
  if M.length ≠ 0 ∧ M.length % 16 = 0 then E (xor_bytes (xor_bytes C M_n) K1)
  else E (xor_bytes (xor_bytes C (rfc_pad M_n)) K2)

/-- A segment list is well formed when every segment flagged for signing has
at least `length` bytes at its `data` pointer. -/
def well_formed (data : List krb5_crypto_iov) : Prop :=
  ∀ piov ∈ data, SIGN_IOV piov = true → piov.data.length ≤ piov.data.data.length

instance (data : List krb5_crypto_iov) : Decidable (well_formed data) :=
  inferInstanceAs (Decidable (∀ piov ∈ data,
    SIGN_IOV piov = true → piov.data.length ≤ piov.data.data.length))

/-- Two segments agree for signing: they carry the same flag and, when flagged
for signing, the same length and the same bytes. -/
def same_signed (a b : krb5_crypto_iov) : Prop :=
  SIGN_IOV a = SIGN_IOV b ∧
    (SIGN_IOV a = true → a.data.length = b.data.length ∧ iov_bytes a = iov_bytes b)

instance (a b : krb5_crypto_iov) : Decidable (same_signed a b) :=
  inferInstanceAs (Decidable (SIGN_IOV a = SIGN_IOV b ∧
    (SIGN_IOV a = true → a.data.length = b.data.length ∧ iov_bytes a = iov_bytes b)))

/-- A toy block function on 16-byte blocks, for concrete evaluations. -/
def toy_E (b : List Nat) : List Nat :=
  (List.range BLOCK_SIZE).map fun i => (b.getD i 0 * 5 + i + 200) % 256

/-- A toy `cbc_mac` that always succeeds: it returns `toy_E (block XOR iv)`, an
absent `iv` standing for the zero block, and leaves `output->length` as it
found it. -/
def toy_cbc_mac : cbc_mac_fn :=
  fun _ block ivec length => (0, toy_E (xor_bytes block (ivec.getD const_Zero)), length)

/-- A toy `cbc_mac` that fails with code `5` on every block whose first byte is
`0xEE`, and behaves as `toy_cbc_mac` otherwise. -/
def toy_cbc_mac_failing : cbc_mac_fn :=
  fun _ block ivec length =>
    if block.getD 0 0 = 0xEE then (5, ivec.getD const_Zero, length)
    else (0, toy_E (xor_bytes block (ivec.getD const_Zero)), length)

/-- A toy `cbc_mac` that writes its block as `toy_cbc_mac` does and sets
`output->length` to `out_length`, whatever it was. -/
def toy_cbc_mac_length (out_length : Nat) : cbc_mac_fn :=
  fun _ block ivec _ => (0, toy_E (xor_bytes block (ivec.getD const_Zero)), out_length)

/-- A toy provider of block size 16 that always succeeds. -/
def toy_enc : krb5_enc_provider := { block_size := 16, cbc_mac := some toy_cbc_mac }

/-- A toy provider of block size 16 that always succeeds and reports 4 bytes
of output. -/
def toy_enc_short : krb5_enc_provider :=
  { block_size := 16, cbc_mac := some (toy_cbc_mac_length 4) }

/-- A toy provider of block size 16 that always succeeds and reports 32 bytes
of output. -/
def toy_enc_long : krb5_enc_provider :=
  { block_size := 16, cbc_mac := some (toy_cbc_mac_length 32) }

/-- A toy provider of block size 16 that fails on blocks starting with `0xEE`. -/
def toy_enc_failing : krb5_enc_provider :=
  { block_size := 16, cbc_mac := some toy_cbc_mac_failing }

/-- A toy provider whose block size is 8. -/
def toy_enc_des : krb5_enc_provider := { block_size := 8, cbc_mac := some toy_cbc_mac }

/-- A provider of block size 8 that supplies no `cbc_mac`: the pointer is null. -/
def toy_enc_no_mac : krb5_enc_provider := { block_size := 8, cbc_mac := none }

/-- One signed segment holding the bytes `bytes`. -/
def sign_seg (bytes : List Nat) : krb5_crypto_iov :=
  { sign := true, data := { length := bytes.length, data := bytes } }

/-- One segment not flagged for signing, holding the bytes `bytes`. -/
def skip_seg (bytes : List Nat) : krb5_crypto_iov :=
  { sign := false, data := { length := bytes.length, data := bytes } }

/-- A segment list of 33 signed bytes in three signed segments with a segment
not flagged for signing in between; the second 16-byte block starts with
`0xEE`, on which `toy_cbc_mac_failing` fails. -/
def fail_data : List krb5_crypto_iov :=
  [sign_seg (List.range 16), skip_seg [1, 2, 3], sign_seg (0xEE :: List.range 15),
   sign_seg [9]]

/-- A caller's output buffer of `cap` bytes, all `0xAA`. -/
def out_buf (cap : Nat) : krb5_data := { length := cap, data := List.replicate cap 0xAA }

/-! ## AES-128, the provider of the RFC 4493 test vectors -/

/-- Modelled from the spec: the S-box of AES (FIPS 197, figure 7). AES is the
provider the spec names for its test vectors; its implementation is not among
the sources. -/
def aes_sbox : List Nat :=
  [0x63, 0x7c, 0x77, 0x7b, 0xf2, 0x6b, 0x6f, 0xc5, 0x30, 0x01, 0x67, 0x2b, 0xfe, 0xd7, 0xab, 0x76,
   0xca, 0x82, 0xc9, 0x7d, 0xfa, 0x59, 0x47, 0xf0, 0xad, 0xd4, 0xa2, 0xaf, 0x9c, 0xa4, 0x72, 0xc0,
   0xb7, 0xfd, 0x93, 0x26, 0x36, 0x3f, 0xf7, 0xcc, 0x34, 0xa5, 0xe5, 0xf1, 0x71, 0xd8, 0x31, 0x15,
   0x04, 0xc7, 0x23, 0xc3, 0x18, 0x96, 0x05, 0x9a, 0x07, 0x12, 0x80, 0xe2, 0xeb, 0x27, 0xb2, 0x75,
   0x09, 0x83, 0x2c, 0x1a, 0x1b, 0x6e, 0x5a, 0xa0, 0x52, 0x3b, 0xd6, 0xb3, 0x29, 0xe3, 0x2f, 0x84,
   0x53, 0xd1, 0x00, 0xed, 0x20, 0xfc, 0xb1, 0x5b, 0x6a, 0xcb, 0xbe, 0x39, 0x4a, 0x4c, 0x58, 0xcf,
   0xd0, 0xef, 0xaa, 0xfb, 0x43, 0x4d, 0x33, 0x85, 0x45, 0xf9, 0x02, 0x7f, 0x50, 0x3c, 0x9f, 0xa8,
   0x51, 0xa3, 0x40, 0x8f, 0x92, 0x9d, 0x38, 0xf5, 0xbc, 0xb6, 0xda, 0x21, 0x10, 0xff, 0xf3, 0xd2,
   0xcd, 0x0c, 0x13, 0xec, 0x5f, 0x97, 0x44, 0x17, 0xc4, 0xa7, 0x7e, 0x3d, 0x64, 0x5d, 0x19, 0x73,
   0x60, 0x81, 0x4f, 0xdc, 0x22, 0x2a, 0x90, 0x88, 0x46, 0xee, 0xb8, 0x14, 0xde, 0x5e, 0x0b, 0xdb,
   0xe0, 0x32, 0x3a, 0x0a, 0x49, 0x06, 0x24, 0x5c, 0xc2, 0xd3, 0xac, 0x62, 0x91, 0x95, 0xe4, 0x79,
   0xe7, 0xc8, 0x37, 0x6d, 0x8d, 0xd5, 0x4e, 0xa9, 0x6c, 0x56, 0xf4, 0xea, 0x65, 0x7a, 0xae, 0x08,
   0xba, 0x78, 0x25, 0x2e, 0x1c, 0xa6, 0xb4, 0xc6, 0xe8, 0xdd, 0x74, 0x1f, 0x4b, 0xbd, 0x8b, 0x8a,
   0x70, 0x3e, 0xb5, 0x66, 0x48, 0x03, 0xf6, 0x0e, 0x61, 0x35, 0x57, 0xb9, 0x86, 0xc1, 0x1d, 0x9e,
   0xe1, 0xf8, 0x98, 0x11, 0x69, 0xd9, 0x8e, 0x94, 0x9b, 0x1e, 0x87, 0xe9, 0xce, 0x55, 0x28, 0xdf,
   0x8c, 0xa1, 0x89, 0x0d, 0xbf, 0xe6, 0x42, 0x68, 0x41, 0x99, 0x2d, 0x0f, 0xb0, 0x54, 0xbb, 0x16]

/-- Modelled from the spec: multiplication by `x` in the field of AES
(FIPS 197, section 4.2.1). -/
def aes_xtime (a : Nat) : Nat :=
  if a &&& 0x80 ≠ 0 then ((a <<< 1) ^^^ 0x1b) % 256 else (a <<< 1) % 256

/-- Modelled from the spec: `SubBytes` of AES on a list of bytes. -/
def aes_sub_bytes (s : List Nat) : List Nat := s.map fun x => aes_sbox.getD x 0

/-- Modelled from the spec: `ShiftRows` of AES. The state is kept in input
order, byte `r + 4 * c` being row `r` of column `c`. -/
def aes_shift_rows (s : List Nat) : List Nat :=
  (List.range 16).map fun i => s.getD (i % 4 + 4 * ((i / 4 + i % 4) % 4)) 0

/-- Modelled from the spec: `MixColumns` of AES on one column. -/
def aes_mix_column (a0 a1 a2 a3 : Nat) : List Nat :=
  [aes_xtime a0 ^^^ (aes_xtime a1 ^^^ a1) ^^^ a2 ^^^ a3,
   a0 ^^^ aes_xtime a1 ^^^ (aes_xtime a2 ^^^ a2) ^^^ a3,
   a0 ^^^ a1 ^^^ aes_xtime a2 ^^^ (aes_xtime a3 ^^^ a3),
   (aes_xtime a0 ^^^ a0) ^^^ a1 ^^^ a2 ^^^ aes_xtime a3]

/-- Modelled from the spec: `MixColumns` of AES. -/
def aes_mix_columns (s : List Nat) : List Nat :=
  (List.range 4).flatMap fun c =>
    aes_mix_column (s.getD (4 * c) 0) (s.getD (4 * c + 1) 0) (s.getD (4 * c + 2) 0)
      (s.getD (4 * c + 3) 0)

/-- Modelled from the spec: the round constants of the AES key expansion. -/
def aes_rcon : List Nat := [0x01, 0x02, 0x04, 0x08, 0x10, 0x20, 0x40, 0x80, 0x1b, 0x36]

/-- Modelled from the spec: the round key that follows `rk` in the AES-128 key
expansion (FIPS 197, section 5.2), `rc` being the round constant. -/
def aes_next_round_key (rk : List Nat) (rc : Nat) : List Nat :=
  let t0 := aes_sbox.getD (rk.getD 13 0) 0 ^^^ rc
  let t1 := aes_sbox.getD (rk.getD 14 0) 0
  let t2 := aes_sbox.getD (rk.getD 15 0) 0
  let t3 := aes_sbox.getD (rk.getD 12 0) 0
  let w0 := [rk.getD 0 0 ^^^ t0, rk.getD 1 0 ^^^ t1, rk.getD 2 0 ^^^ t2, rk.getD 3 0 ^^^ t3]
  let w1 := xor_bytes (rk.drop 4) w0
  let w2 := xor_bytes (rk.drop 8) w1
  let w3 := xor_bytes (rk.drop 12) w2
  w0 ++ w1 ++ w2 ++ w3

/-- Modelled from the spec: rounds 1 to 10 of the AES-128 cipher, the round
keys being derived on the way; the last round has no `MixColumns`. -/
def aes_rounds : List Nat → List Nat → List Nat → List Nat
  | [], _, s => s
  | [rc], rk, s =>
    xor_bytes (aes_shift_rows (aes_sub_bytes s)) (aes_next_round_key rk rc)
  | rc :: rcs, rk, s =>
    aes_rounds rcs (aes_next_round_key rk rc)
      (xor_bytes (aes_mix_columns (aes_shift_rows (aes_sub_bytes s)))
        (aes_next_round_key rk rc))

/-- Modelled from the spec: the AES-128 cipher on one block (FIPS 197,
section 5.1). -/
def aes128_encrypt (key block : List Nat) : List Nat :=
  aes_rounds aes_rcon key (xor_bytes block key)

/-- Modelled from the spec: the `cbc_mac` of the AES-128 provider, the
encryption of `block XOR iv`, an absent `iv` standing for the zero block. The
MAC block it writes has 16 bytes, which is what it leaves in
`output->length`. -/
def aes128_cbc_mac : cbc_mac_fn :=
  fun key block ivec _ =>
    (0, aes128_encrypt key (xor_bytes block (ivec.getD const_Zero)), BLOCK_SIZE)

/-- Modelled from the spec: the AES-128 provider, of block size 16. -/
def aes128_enc : krb5_enc_provider := { block_size := 16, cbc_mac := some aes128_cbc_mac }

/-- The key of the RFC 4493 test vectors. -/
def rfc_key : krb5_key :=
  [0x2b, 0x7e, 0x15, 0x16, 0x28, 0xae, 0xd2, 0xa6, 0xab, 0xf7, 0x15, 0x88, 0x09, 0xcf, 0x4f, 0x3c]

/-- The 64-byte message of the RFC 4493 test vectors; the shorter messages are
its first 16 and first 40 bytes. -/
def rfc_message : List Nat :=
  [0x6b, 0xc1, 0xbe, 0xe2, 0x2e, 0x40, 0x9f, 0x96, 0xe9, 0x3d, 0x7e, 0x11, 0x73, 0x93, 0x17, 0x2a,
   0xae, 0x2d, 0x8a, 0x57, 0x1e, 0x03, 0xac, 0x9c, 0x9e, 0xb7, 0x6f, 0xac, 0x45, 0xaf, 0x8e, 0x51,
   0x30, 0xc8, 0x1c, 0x46, 0xa3, 0x5c, 0xe4, 0x11, 0xe5, 0xfb, 0xc1, 0x19, 0x1a, 0x0a, 0x52, 0xef,
   0xf6, 0x9f, 0x24, 0x45, 0xdf, 0x4f, 0x9b, 0x17, 0xad, 0x2b, 0x41, 0x7b, 0xe6, 0x6c, 0x37, 0x10]

/-- A segment list of one signed segment of `2 ^ 32 - 1` bytes, the largest
`length` a `krb5_data` can announce. -/
def huge_data : List krb5_crypto_iov :=
  [{ sign := true, data := { length := 4294967295, data := List.replicate 4294967295 0 } }]

/-- A segment list of two signed segments of `2 ^ 31` bytes each: `2 ^ 32`
signed bytes in all, a multiple of 16. -/
def wrap_data : List krb5_crypto_iov :=
  [{ sign := true, data := { length := 2147483648, data := List.replicate 2147483648 0 } },
   { sign := true, data := { length := 2147483648, data := List.replicate 2147483648 0 } }]

/-! ## The XOR on a memory -/

/-- The `n` bytes a memory holds from address `p` on. -/
def load_bytes (mem : Nat → Nat) (p n : Nat) : List Nat :=
  (List.range n).map fun i => mem (p + i)

/-- The memory after `bytes` were written from address `p` on. -/
def store_bytes (mem : Nat → Nat) (p : Nat) (bytes : List Nat) : Nat → Nat :=
  fun q => if p ≤ q ∧ q < p + bytes.length then bytes.getD (q - p) 0 else mem q

/-- The function `xor_128(a, b, out)` on a memory, `a`, `b` and `out` being
addresses: the same loop as `xor_128`, each word being loaded from the memory
as it is at that iteration and stored through `outptr`. It tells what the
call writes and where, also when `out` is `a` or `b`. -/
def xor_128_mem (bo : ByteOrder) (mem : Nat → Nat) (a b out : Nat) : Nat → Nat :=
  (List.range (BLOCK_SIZE / 4)).foldl
    (fun m z =>
      store_bytes m (out + z * 4)
        (store_32_n bo
          (load_32_n bo (load_bytes m (a + z * 4) 4) ^^^
            load_32_n bo (load_bytes m (b + z * 4) 4))))
    mem

/-! ## The trace of provider invocations -/

theorem generate_subkey_ret (bo : ByteOrder) (cbc_mac : cbc_mac_fn) (key : krb5_key) :
    (generate_subkey bo cbc_mac key).ret = (cbc_mac key (List.replicate BLOCK_SIZE 0) none BLOCK_SIZE).1 := by
  unfold generate_subkey
  by_cases h : (cbc_mac key (List.replicate BLOCK_SIZE 0) none BLOCK_SIZE).1 = 0 <;> simp [h]

theorem generate_subkey_calls (bo : ByteOrder) (cbc_mac : cbc_mac_fn) (key : krb5_key) :
    (generate_subkey bo cbc_mac key).calls =
      [{ data := List.replicate BLOCK_SIZE 0, ivec := none, length := BLOCK_SIZE,
         ret := (cbc_mac key (List.replicate BLOCK_SIZE 0) none BLOCK_SIZE).1,
         out := (cbc_mac key (List.replicate BLOCK_SIZE 0) none BLOCK_SIZE).2.1,
         out_length := (cbc_mac key (List.replicate BLOCK_SIZE 0) none BLOCK_SIZE).2.2 }] := by
  unfold generate_subkey
  by_cases h : (cbc_mac key (List.replicate BLOCK_SIZE 0) none BLOCK_SIZE).1 = 0 <;> simp [h]

/-- The block loop only appends to the trace. When it ends with code `0` it
has made `count` invocations, all successful; when it ends with another code,
that code is the one of the last invocation and all earlier ones succeeded. -/
theorem block_loop_trace (cbc_mac : cbc_mac_fn) (key : krb5_key)
    (data : List krb5_crypto_iov) :
    ∀ (count : Nat) (s : loop_state), s.ret = 0 →
      ∃ added, (block_loop cbc_mac key data count s).calls = s.calls ++ added ∧
        ((block_loop cbc_mac key data count s).ret = 0 →
          all_ok added ∧ added.length = count) ∧
        ((block_loop cbc_mac key data count s).ret ≠ 0 →
          ∃ pre c, added = pre ++ [c] ∧ all_ok pre ∧
            c.ret = (block_loop cbc_mac key data count s).ret) := by
  intro count
  induction count with
  | zero =>
    intro s hs
    refine ⟨[], by simp [block_loop], ?_, ?_⟩
    · intro _; exact ⟨by simp [all_ok], rfl⟩
    · intro h; exact absurd hs h
  | succ k ih =>
    intro s _
    simp only [block_loop]
    generalize krb5int_c_iov_get_block s.input BLOCK_SIZE data s.iov_state = gb
    generalize cbc_mac key gb.1 (some s.Y) s.d_length = r
    by_cases hr : r.1 = 0
    · simp only [hr, ne_eq, not_true_eq_false, if_false]
      obtain ⟨added, hcalls, hok, hbad⟩ := ih
        { ret := 0, Y := r.2.1, d_length := r.2.2, input := gb.1, iov_state := gb.2,
          calls := s.calls ++
            [{ data := gb.1, ivec := some s.Y, length := s.d_length, ret := 0, out := r.2.1,
               out_length := r.2.2 }] } rfl
      refine ⟨{ data := gb.1, ivec := some s.Y, length := s.d_length, ret := 0, out := r.2.1,
                    out_length := r.2.2 } :: added,
        by rw [hcalls]; simp, ?_, ?_⟩
      · intro h
        obtain ⟨h1, h2⟩ := hok h
        refine ⟨?_, by simp [h2]⟩
        intro c hc
        rcases List.mem_cons.mp hc with rfl | hc
        · rfl
        · exact h1 c hc
      · intro h
        obtain ⟨pre, c, h1, h2, h3⟩ := hbad h
        refine ⟨{ data := gb.1, ivec := some s.Y, length := s.d_length, ret := 0, out := r.2.1,
                    out_length := r.2.2 } :: pre, c,
          by rw [h1]; simp, ?_, h3⟩
        intro c' hc'
        rcases List.mem_cons.mp hc' with rfl | hc'
        · rfl
        · exact h2 c' hc'
    · rw [if_pos hr]
      refine ⟨[{ data := gb.1, ivec := some s.Y, length := s.d_length, ret := r.1,
                  out := r.2.1, out_length := r.2.2 }], rfl, ?_, ?_⟩
      · intro h; exact absurd h hr
      · intro _
        exact ⟨[], _, rfl, by simp [all_ok], rfl⟩

/-- Without a `cbc_mac` the driver stops at the assertion of line 174. -/
theorem krb5int_cmac_checksum_null (bo : ByteOrder) (ctp : krb5_cksumtypes)
    (key : krb5_key) (usage : Int) (data : List krb5_crypto_iov) (output : krb5_data)
    (stack : List Nat) (hcm : ctp.enc.cbc_mac = none) :
    krb5int_cmac_checksum bo ctp key usage data output stack =
      { outcome := .assert_failed 174, output := output, calls := [] } := by
  unfold krb5int_cmac_checksum
  simp only [hcm]

/-- The driver, once the pointer `cbc_mac` is found non-null, written over its
named intermediate values. -/
theorem krb5int_cmac_checksum_eq (bo : ByteOrder) (ctp : krb5_cksumtypes) (key : krb5_key)
    (usage : Int) (data : List krb5_crypto_iov) (output : krb5_data) (stack : List Nat)
    (cbc_mac : cbc_mac_fn) (hcm : ctp.enc.cbc_mac = some cbc_mac) :
    krb5int_cmac_checksum bo ctp key usage data output stack =
      if ctp.enc.block_size ≠ BLOCK_SIZE then
        { outcome := .returned KRB5_BAD_MSIZE, output := output, calls := [] }
      else if (generate_subkey bo cbc_mac key).ret ≠ 0 then
        { outcome := .returned (generate_subkey bo cbc_mac key).ret, output := output,
          calls := (generate_subkey bo cbc_mac key).calls }
      else if (loop_exit bo cbc_mac key data stack).ret ≠ 0 then
        { outcome := .returned (loop_exit bo cbc_mac key data stack).ret, output := output,
          calls := (loop_exit bo cbc_mac key data stack).calls }
      else if (final_call bo cbc_mac key data stack).ret ≠ 0 then
        { outcome := .returned (final_call bo cbc_mac key data stack).ret, output := output,
          calls := (loop_exit bo cbc_mac key data stack).calls ++
            [final_call bo cbc_mac key data stack] }
      else if ¬ (output.length ≥ (final_call bo cbc_mac key data stack).out_length) then
        { outcome := .assert_failed 234, output := output,
          calls := (loop_exit bo cbc_mac key data stack).calls ++
            [final_call bo cbc_mac key data stack] }
      else
        { outcome := .returned 0,
          output := { length := (final_call bo cbc_mac key data stack).out_length,
                      data := (final_call bo cbc_mac key data stack).out.take
                          (final_call bo cbc_mac key data stack).out_length ++
                        output.data.drop (final_call bo cbc_mac key data stack).out_length },
          calls := (loop_exit bo cbc_mac key data stack).calls ++
            [final_call bo cbc_mac key data stack] } := by
  unfold krb5int_cmac_checksum
  simp only [hcm]
  rfl

theorem block_count_pos (length : Nat) : 1 ≤ block_count length := by
  unfold block_count
  simp only [BLOCK_SIZE]
  split_ifs <;> omega

theorem all_ok_subkey (bo : ByteOrder) (cbc_mac : cbc_mac_fn) (key : krb5_key)
    (h : (generate_subkey bo cbc_mac key).ret = 0) : all_ok (generate_subkey bo cbc_mac key).calls := by
  intro c hc
  rw [generate_subkey_calls] at hc
  rw [generate_subkey_ret] at h
  simp only [List.mem_singleton] at hc
  rw [hc]; exact h

theorem all_ok_append {xs ys : List cbc_mac_call} (hx : all_ok xs) (hy : all_ok ys) :
    all_ok (xs ++ ys) := by
  intro c hc
  rcases List.mem_append.mp hc with h | h
  · exact hx c h
  · exact hy c h

/-- The trace when the block loop is left: the subkey call, then what
`block_loop_trace` describes. -/
theorem loop_exit_trace (bo : ByteOrder) (cbc_mac : cbc_mac_fn) (key : krb5_key)
    (data : List krb5_crypto_iov) (stack : List Nat) :
    ∃ added, (loop_exit bo cbc_mac key data stack).calls =
        (generate_subkey bo cbc_mac key).calls ++ added ∧
      ((loop_exit bo cbc_mac key data stack).ret = 0 →
        all_ok added ∧ added.length = block_count (signed_length data) - 1) ∧
      ((loop_exit bo cbc_mac key data stack).ret ≠ 0 →
        ∃ pre c, added = pre ++ [c] ∧ all_ok pre ∧
          c.ret = (loop_exit bo cbc_mac key data stack).ret) :=
  block_loop_trace cbc_mac key data (block_count (signed_length data) - 1)
    { ret := 0, Y := List.replicate BLOCK_SIZE 0, d_length := BLOCK_SIZE, input := stack,
      iov_state := IOV_BLOCK_STATE_INIT, calls := (generate_subkey bo cbc_mac key).calls } rfl

/-- The shape of the driver's trace for a provider of block size 16: a run of
successful invocations followed by one last invocation. If the last one
failed, its code is what the driver returns and the output is untouched; if
it succeeded, the run before it is the subkey call and the `n - 1` chained
calls, the last invocation is the one on `M_last`, and the driver either
returns `0` with the tag written or stops at its assertion. -/
theorem cmac_trace_shape (bo : ByteOrder) (ctp : krb5_cksumtypes) (key : krb5_key)
    (usage : Int) (data : List krb5_crypto_iov) (output : krb5_data) (stack : List Nat)
    (cbc_mac : cbc_mac_fn) (hcm : ctp.enc.cbc_mac = some cbc_mac)
    (hbs : ctp.enc.block_size = BLOCK_SIZE) :
    ∃ pre c,
      (krb5int_cmac_checksum bo ctp key usage data output stack).calls = pre ++ [c] ∧
      all_ok pre ∧
      (c.ret ≠ 0 →
        krb5int_cmac_checksum bo ctp key usage data output stack =
          { outcome := .returned c.ret, output := output, calls := pre ++ [c] }) ∧
      (c.ret = 0 →
        pre.length = block_count (signed_length data) ∧
        c = final_call bo cbc_mac key data stack ∧
        krb5int_cmac_checksum bo ctp key usage data output stack =
          (if ¬ (output.length ≥ c.out_length) then
            { outcome := .assert_failed 234, output := output, calls := pre ++ [c] }
          else
            { outcome := .returned 0,
              output := { length := c.out_length,
                          data := c.out.take c.out_length ++ output.data.drop c.out_length },
              calls := pre ++ [c] })) := by
  have hn := block_count_pos (signed_length data)
  rw [krb5int_cmac_checksum_eq bo ctp key usage data output stack cbc_mac hcm]
  simp only [hbs, ne_eq, not_true_eq_false, if_false]
  by_cases hsk : (generate_subkey bo cbc_mac key).ret = 0
  · obtain ⟨added, hcalls, hok, hbad⟩ := loop_exit_trace bo cbc_mac key data stack
    have hsk0 := all_ok_subkey bo cbc_mac key hsk
    have hsklen : (generate_subkey bo cbc_mac key).calls.length = 1 := by
      rw [generate_subkey_calls]; rfl
    simp only [hsk, not_true_eq_false, if_false]
    by_cases hlp : (loop_exit bo cbc_mac key data stack).ret = 0
    · obtain ⟨hadd, hlen⟩ := hok hlp
      simp only [hlp, not_true_eq_false, if_false]
      refine ⟨(loop_exit bo cbc_mac key data stack).calls, final_call bo cbc_mac key data stack,
        ?_, ?_, ?_, ?_⟩
      · split_ifs <;> rfl
      · rw [hcalls]; exact all_ok_append hsk0 hadd
      · intro hc
        rw [if_pos hc]
      · intro hc
        refine ⟨?_, rfl, ?_⟩
        · rw [hcalls, List.length_append, hsklen, hlen]; omega
        · simp only [hc, not_true_eq_false, if_false]
    · obtain ⟨pre, c, hadd, hpre, hc⟩ := hbad hlp
      rw [if_pos hlp]
      refine ⟨(generate_subkey bo cbc_mac key).calls ++ pre, c, ?_, ?_, ?_, ?_⟩
      · simp only [hcalls, hadd, List.append_assoc]
      · exact all_ok_append hsk0 hpre
      · intro _
        simp only [hcalls, hadd, List.append_assoc, hc]
      · intro h0
        rw [hc] at h0
        exact absurd h0 hlp
  · rw [if_pos hsk]
    refine ⟨[], (generate_subkey bo cbc_mac key).calls.head (by
      rw [generate_subkey_calls]; simp), ?_, ?_, ?_, ?_⟩
    · simp only [generate_subkey_calls, List.head_cons, List.nil_append]
    · intro c hc; simp at hc
    · intro _
      simp only [generate_subkey_calls, generate_subkey_ret, List.head_cons, List.nil_append]
    · intro h0
      simp only [generate_subkey_calls, List.head_cons] at h0
      rw [generate_subkey_ret] at hsk
      exact absurd h0 hsk

theorem faithful_append {cbc_mac : cbc_mac_fn} {key : krb5_key}
    {xs ys : List cbc_mac_call} (hx : faithful cbc_mac key xs) (hy : faithful cbc_mac key ys) :
    faithful cbc_mac key (xs ++ ys) := by
  intro c hc
  rcases List.mem_append.mp hc with h | h
  · exact hx c h
  · exact hy c h

theorem block_loop_faithful (cbc_mac : cbc_mac_fn) (key : krb5_key)
    (data : List krb5_crypto_iov) :
    ∀ (count : Nat) (s : loop_state), faithful cbc_mac key s.calls →
      faithful cbc_mac key (block_loop cbc_mac key data count s).calls := by
  intro count
  induction count with
  | zero => intro s hs; exact hs
  | succ k ih =>
    intro s hs
    simp only [block_loop]
    have hstep : faithful cbc_mac key (s.calls ++
        [{ data := (krb5int_c_iov_get_block s.input BLOCK_SIZE data s.iov_state).1
           ivec := some s.Y
           length := s.d_length
           ret := (cbc_mac key
             (krb5int_c_iov_get_block s.input BLOCK_SIZE data s.iov_state).1 (some s.Y)
             s.d_length).1
           out := (cbc_mac key
             (krb5int_c_iov_get_block s.input BLOCK_SIZE data s.iov_state).1
             (some s.Y) s.d_length).2.1
           out_length := (cbc_mac key
             (krb5int_c_iov_get_block s.input BLOCK_SIZE data s.iov_state).1
             (some s.Y) s.d_length).2.2 }]) := by
      apply faithful_append hs
      intro c hc
      simp only [List.mem_singleton] at hc
      subst hc
      exact ⟨rfl, rfl, rfl⟩
    split_ifs with h
    · exact hstep
    · exact ih _ hstep

theorem cmac_faithful (bo : ByteOrder) (ctp : krb5_cksumtypes) (key : krb5_key)
    (usage : Int) (data : List krb5_crypto_iov) (output : krb5_data) (stack : List Nat)
    (cbc_mac : cbc_mac_fn) (hcm : ctp.enc.cbc_mac = some cbc_mac) :
    faithful cbc_mac key (krb5int_cmac_checksum bo ctp key usage data output stack).calls := by
  have hsk : faithful cbc_mac key (generate_subkey bo cbc_mac key).calls := by
    rw [generate_subkey_calls]
    intro c hc
    simp only [List.mem_singleton] at hc
    subst hc
    exact ⟨rfl, rfl, rfl⟩
  have hlp : faithful cbc_mac key (loop_exit bo cbc_mac key data stack).calls :=
    block_loop_faithful cbc_mac key data _ _ hsk
  have hfin : faithful cbc_mac key
      ((loop_exit bo cbc_mac key data stack).calls ++ [final_call bo cbc_mac key data stack]) := by
    apply faithful_append hlp
    intro c hc
    simp only [List.mem_singleton] at hc
    subst hc
    exact ⟨rfl, rfl, rfl⟩
  rw [krb5int_cmac_checksum_eq bo ctp key usage data output stack cbc_mac hcm]
  split_ifs
  · intro c hc; simp at hc
  · exact hsk
  · exact hlp
  · exact hfin
  · exact hfin
  · exact hfin

/-- With a provider that never fails and block size 16, the driver ends in its
last two lines: the assertion, then the copy of the tag. -/
theorem cmac_of_provider_ok (bo : ByteOrder) (ctp : krb5_cksumtypes) (key : krb5_key)
    (usage : Int) (data : List krb5_crypto_iov) (output : krb5_data) (stack : List Nat)
    (cbc_mac : cbc_mac_fn) (hcm : ctp.enc.cbc_mac = some cbc_mac)
    (hbs : ctp.enc.block_size = BLOCK_SIZE)
    (hok : ∀ block ivec length, (cbc_mac key block ivec length).1 = 0) :
    krb5int_cmac_checksum bo ctp key usage data output stack =
      (if ¬ (output.length ≥ (final_call bo cbc_mac key data stack).out_length) then
        { outcome := .assert_failed 234, output := output,
          calls := (loop_exit bo cbc_mac key data stack).calls ++
            [final_call bo cbc_mac key data stack] }
      else
        { outcome := .returned 0,
          output := { length := (final_call bo cbc_mac key data stack).out_length,
                      data := (final_call bo cbc_mac key data stack).out.take
                          (final_call bo cbc_mac key data stack).out_length ++
                        output.data.drop (final_call bo cbc_mac key data stack).out_length },
          calls := (loop_exit bo cbc_mac key data stack).calls ++
            [final_call bo cbc_mac key data stack] }) ∧
    (loop_exit bo cbc_mac key data stack).calls.length = block_count (signed_length data) := by
  have hsk : (generate_subkey bo cbc_mac key).ret = 0 := by
    rw [generate_subkey_ret]; exact hok _ _ _
  have hfc : (final_call bo cbc_mac key data stack).ret = 0 := hok _ _ _
  obtain ⟨added, hcalls, hgood, hbad⟩ := loop_exit_trace bo cbc_mac key data stack
  have hlp : (loop_exit bo cbc_mac key data stack).ret = 0 := by
    by_contra hne
    obtain ⟨pre, c, hadd, _, hc⟩ := hbad hne
    have hmem : c ∈ (loop_exit bo cbc_mac key data stack).calls := by
      rw [hcalls, hadd]; simp
    have hsk' : faithful cbc_mac key (generate_subkey bo cbc_mac key).calls := by
      rw [generate_subkey_calls]
      intro c hc
      simp only [List.mem_singleton] at hc
      subst hc
      exact ⟨rfl, rfl, rfl⟩
    have hf := block_loop_faithful cbc_mac key data
      (block_count (signed_length data) - 1) _ hsk' c hmem
    rw [← hc, hf.1] at hne
    exact hne (hok _ _ _)
  constructor
  · rw [krb5int_cmac_checksum_eq bo ctp key usage data output stack cbc_mac hcm]
    simp only [hbs, hsk, hlp, hfc, ne_eq, not_true_eq_false, if_false]
  · obtain ⟨_, hlen⟩ := hgood hlp
    have h1 := block_count_pos (signed_length data)
    rw [hcalls, List.length_append, generate_subkey_calls, hlen]
    simp only [List.length_singleton]
    omega

/-! ## Arithmetic of the signed length -/

theorem signed_length_fold (data : List krb5_crypto_iov) :
    ∀ acc : Nat, acc < 2 ^ 32 →
      data.foldl
        (fun length piov =>
          if SIGN_IOV piov then (length + piov.data.length) % 2 ^ 32 else length) acc =
        (acc + signed_total data) % 2 ^ 32 := by
  induction data with
  | nil =>
    intro acc h
    simp only [List.foldl_nil, signed_total, Nat.add_zero]
    exact (Nat.mod_eq_of_lt h).symm
  | cons piov rest ih =>
    intro acc h
    simp only [List.foldl_cons, signed_total]
    by_cases hs : SIGN_IOV piov = true
    · simp only [hs, if_true]
      rw [ih _ (Nat.mod_lt _ (by norm_num))]
      omega
    · simp only [hs, if_false, Bool.false_eq_true]
      exact ih acc h

/-- The `unsigned int` sum of the driver is the true signed length modulo
`2 ^ 32`. -/
theorem signed_length_eq (data : List krb5_crypto_iov) :
    signed_length data = signed_total data % 2 ^ 32 := by
  unfold signed_length
  rw [signed_length_fold data 0 (by norm_num), Nat.zero_add]

/-- Below `2 ^ 32 - 15` the driver's block count is the spec's. -/
theorem block_count_eq_spec (length : Nat) (h : length < 2 ^ 32 - 15) :
    block_count length = spec_block_count length := by
  unfold block_count spec_block_count
  simp only [BLOCK_SIZE]
  split_ifs <;> omega

theorem split_at_last {α : Type} {pre pre' post : List α} {c c' : α} (p : α → Prop)
    (h : pre ++ c :: post = pre' ++ [c']) (hpre : ∀ x ∈ pre', p x) (hc : ¬ p c) :
    post = [] ∧ pre = pre' ∧ c = c' := by
  by_cases hpost : post = []
  · subst hpost
    have h' := List.append_inj' h rfl
    exact ⟨rfl, h'.1, by simpa using h'.2⟩
  · exfalso
    have hd := congrArg List.dropLast h
    rw [List.dropLast_append_cons, List.dropLast_cons_of_ne_nil hpost,
      List.dropLast_concat] at hd
    exact hc (hpre c (by rw [← hd]; simp))

theorem signed_length_lt (data : List krb5_crypto_iov) : signed_length data < 2 ^ 32 := by
  rw [signed_length_eq]
  exact Nat.mod_lt _ (by norm_num)

/-- The driver's `flag` is set exactly for a non-zero multiple of 16. -/
theorem last_block_flag_iff (length : Nat) (h : length < 2 ^ 32) :
    last_block_flag length = true ↔ length ≠ 0 ∧ length % 16 = 0 := by
  unfold last_block_flag
  simp only [BLOCK_SIZE]
  split_ifs with h0
  · simp only [Bool.false_eq_true, false_iff, not_and]
    omega
  · simp only [decide_eq_true_eq]
    omega

/-! ## Bytes and blocks -/

theorem xor_mul_add (k a b x y : Nat) (hx : x < 2 ^ k) (hy : y < 2 ^ k) :
    (2 ^ k * a + x) ^^^ (2 ^ k * b + y) = 2 ^ k * (a ^^^ b) + (x ^^^ y) := by
  apply Nat.eq_of_testBit_eq
  intro j
  rw [Nat.testBit_xor, Nat.testBit_mul_pow_two_add _ hx, Nat.testBit_mul_pow_two_add _ hy,
    Nat.testBit_mul_pow_two_add _ (Nat.xor_lt_two_pow hx hy)]
  split_ifs <;> simp

theorem xor_byte_lt {x y : Nat} (hx : x < 256) (hy : y < 256) : x ^^^ y < 256 :=
  Nat.xor_lt_two_pow (n := 8) hx hy

set_option maxRecDepth 100000 in
theorem msb_flag_eq : ∀ b < 256, (if b &&& 0x80 ≠ 0 then 1 else 0) = b / 128 := by
  decide

set_option maxRecDepth 100000 in
theorem msb_zero_iff : ∀ b < 256, (b &&& 0x80 = 0 ↔ b < 128) := by
  decide

theorem shift_or (a c : Nat) (hc : c < 2) : (a <<< 1) % 256 ||| c = 2 * a % 256 + c := by
  have h1 : (a <<< 1) % 256 = 2 ^ 1 * (a % 128) := by
    rw [Nat.shiftLeft_eq]; omega
  have h2 : 2 * a % 256 = 2 ^ 1 * (a % 128) := by omega
  rw [h1, h2]
  exact (Nat.mul_add_lt_is_or (i := 1) hc (a % 128)).symm

/-- The XOR of two 32-bit words loaded in either byte order, stored back, is
the byte-wise XOR. -/
theorem store_load_xor (bo : ByteOrder) (a0 a1 a2 a3 b0 b1 b2 b3 : Nat) (ra rb : List Nat)
    (ha0 : a0 < 256) (ha1 : a1 < 256) (ha2 : a2 < 256) (ha3 : a3 < 256)
    (hb0 : b0 < 256) (hb1 : b1 < 256) (hb2 : b2 < 256) (hb3 : b3 < 256) :
    store_32_n bo (load_32_n bo (a0 :: a1 :: a2 :: a3 :: ra) ^^^
        load_32_n bo (b0 :: b1 :: b2 :: b3 :: rb)) =
      [a0 ^^^ b0, a1 ^^^ b1, a2 ^^^ b2, a3 ^^^ b3] := by
  have x0 := xor_byte_lt ha0 hb0
  have x1 := xor_byte_lt ha1 hb1
  have x2 := xor_byte_lt ha2 hb2
  have x3 := xor_byte_lt ha3 hb3
  cases bo
  · have hw : (a0 * 2 ^ 24 + a1 * 2 ^ 16 + a2 * 2 ^ 8 + a3) ^^^
        (b0 * 2 ^ 24 + b1 * 2 ^ 16 + b2 * 2 ^ 8 + b3) =
        (a0 ^^^ b0) * 2 ^ 24 + (a1 ^^^ b1) * 2 ^ 16 + (a2 ^^^ b2) * 2 ^ 8 + (a3 ^^^ b3) := by
      have e1 := xor_mul_add 8 (a0 * 2 ^ 16 + a1 * 2 ^ 8 + a2) (b0 * 2 ^ 16 + b1 * 2 ^ 8 + b2)
        a3 b3 ha3 hb3
      have e2 := xor_mul_add 8 (a0 * 2 ^ 8 + a1) (b0 * 2 ^ 8 + b1) a2 b2 ha2 hb2
      have e3 := xor_mul_add 8 a0 b0 a1 b1 ha1 hb1
      have l1 : a0 * 2 ^ 24 + a1 * 2 ^ 16 + a2 * 2 ^ 8 + a3 =
          2 ^ 8 * (a0 * 2 ^ 16 + a1 * 2 ^ 8 + a2) + a3 := by ring
      have l2 : b0 * 2 ^ 24 + b1 * 2 ^ 16 + b2 * 2 ^ 8 + b3 =
          2 ^ 8 * (b0 * 2 ^ 16 + b1 * 2 ^ 8 + b2) + b3 := by ring
      have l3 : a0 * 2 ^ 16 + a1 * 2 ^ 8 + a2 = 2 ^ 8 * (a0 * 2 ^ 8 + a1) + a2 := by ring
      have l4 : b0 * 2 ^ 16 + b1 * 2 ^ 8 + b2 = 2 ^ 8 * (b0 * 2 ^ 8 + b1) + b2 := by ring
      have l5 : a0 * 2 ^ 8 + a1 = 2 ^ 8 * a0 + a1 := by ring
      have l6 : b0 * 2 ^ 8 + b1 = 2 ^ 8 * b0 + b1 := by ring
      rw [l1, l2, e1, l3, l4, e2, l5, l6, e3]
      ring
    simp only [load_32_n, store_32_n, List.getD_cons_zero, List.getD_cons_succ, hw]
    simp only [List.cons.injEq, and_true]
    refine ⟨?_, ?_, ?_, ?_⟩ <;> omega
  · have hw : (a0 + a1 * 2 ^ 8 + a2 * 2 ^ 16 + a3 * 2 ^ 24) ^^^
        (b0 + b1 * 2 ^ 8 + b2 * 2 ^ 16 + b3 * 2 ^ 24) =
        (a0 ^^^ b0) + (a1 ^^^ b1) * 2 ^ 8 + (a2 ^^^ b2) * 2 ^ 16 + (a3 ^^^ b3) * 2 ^ 24 := by
      have e1 := xor_mul_add 8 (a1 + a2 * 2 ^ 8 + a3 * 2 ^ 16) (b1 + b2 * 2 ^ 8 + b3 * 2 ^ 16)
        a0 b0 ha0 hb0
      have e2 := xor_mul_add 8 (a2 + a3 * 2 ^ 8) (b2 + b3 * 2 ^ 8) a1 b1 ha1 hb1
      have e3 := xor_mul_add 8 a3 b3 a2 b2 ha2 hb2
      have l1 : a0 + a1 * 2 ^ 8 + a2 * 2 ^ 16 + a3 * 2 ^ 24 =
          2 ^ 8 * (a1 + a2 * 2 ^ 8 + a3 * 2 ^ 16) + a0 := by ring
      have l2 : b0 + b1 * 2 ^ 8 + b2 * 2 ^ 16 + b3 * 2 ^ 24 =
          2 ^ 8 * (b1 + b2 * 2 ^ 8 + b3 * 2 ^ 16) + b0 := by ring
      have l3 : a1 + a2 * 2 ^ 8 + a3 * 2 ^ 16 = 2 ^ 8 * (a2 + a3 * 2 ^ 8) + a1 := by ring
      have l4 : b1 + b2 * 2 ^ 8 + b3 * 2 ^ 16 = 2 ^ 8 * (b2 + b3 * 2 ^ 8) + b1 := by ring
      have l5 : a2 + a3 * 2 ^ 8 = 2 ^ 8 * a3 + a2 := by ring
      have l6 : b2 + b3 * 2 ^ 8 = 2 ^ 8 * b3 + b2 := by ring
      rw [l1, l2, e1, l3, l4, e2, l5, l6, e3]
      ring
    simp only [load_32_n, store_32_n, List.getD_cons_zero, List.getD_cons_succ, hw]
    simp only [List.cons.injEq, and_true]
    refine ⟨?_, ?_, ?_, ?_⟩ <;> omega

/-- A block is a list of sixteen explicit bytes. -/
theorem is_block_explicit {b : List Nat} (h : is_block b) :
    ∃ a0 a1 a2 a3 a4 a5 a6 a7 a8 a9 a10 a11 a12 a13 a14 a15,
      b = [a0, a1, a2, a3, a4, a5, a6, a7, a8, a9, a10, a11, a12, a13, a14, a15] ∧
      a0 < 256 ∧ a1 < 256 ∧ a2 < 256 ∧ a3 < 256 ∧ a4 < 256 ∧ a5 < 256 ∧ a6 < 256 ∧ a7 < 256 ∧ a8 < 256 ∧ a9 < 256 ∧ a10 < 256 ∧ a11 < 256 ∧ a12 < 256 ∧ a13 < 256 ∧ a14 < 256 ∧ a15 < 256 := by
  obtain ⟨hlen, hlt⟩ := h
  rcases b with _ | ⟨a0, b⟩
  · simp at hlen
  rcases b with _ | ⟨a1, b⟩
  · simp at hlen
  rcases b with _ | ⟨a2, b⟩
  · simp at hlen
  rcases b with _ | ⟨a3, b⟩
  · simp at hlen
  rcases b with _ | ⟨a4, b⟩
  · simp at hlen
  rcases b with _ | ⟨a5, b⟩
  · simp at hlen
  rcases b with _ | ⟨a6, b⟩
  · simp at hlen
  rcases b with _ | ⟨a7, b⟩
  · simp at hlen
  rcases b with _ | ⟨a8, b⟩
  · simp at hlen
  rcases b with _ | ⟨a9, b⟩
  · simp at hlen
  rcases b with _ | ⟨a10, b⟩
  · simp at hlen
  rcases b with _ | ⟨a11, b⟩
  · simp at hlen
  rcases b with _ | ⟨a12, b⟩
  · simp at hlen
  rcases b with _ | ⟨a13, b⟩
  · simp at hlen
  rcases b with _ | ⟨a14, b⟩
  · simp at hlen
  rcases b with _ | ⟨a15, b⟩
  · simp at hlen
  rcases b with _ | ⟨x, b⟩
  · exact ⟨a0, a1, a2, a3, a4, a5, a6, a7, a8, a9, a10, a11, a12, a13, a14, a15, rfl,
      hlt a0 (by simp), hlt a1 (by simp), hlt a2 (by simp), hlt a3 (by simp), hlt a4 (by simp), hlt a5 (by simp), hlt a6 (by simp), hlt a7 (by simp), hlt a8 (by simp), hlt a9 (by simp), hlt a10 (by simp), hlt a11 (by simp), hlt a12 (by simp), hlt a13 (by simp), hlt a14 (by simp), hlt a15 (by simp)⟩
  · simp at hlen

/-- On two blocks, the first possibly followed by further bytes, `xor_128` is
the byte-wise XOR, for either byte order. -/
theorem xor_128_append (bo : ByteOrder) (a b tail : List Nat)
    (ha : is_block a) (hb : is_block b) :
    xor_128 bo (a ++ tail) b = xor_bytes a b := by
  obtain ⟨a0, a1, a2, a3, a4, a5, a6, a7, a8, a9, a10, a11, a12, a13, a14, a15, rfl,
    ha0, ha1, ha2, ha3, ha4, ha5, ha6, ha7, ha8, ha9, ha10, ha11, ha12, ha13, ha14, ha15⟩ := is_block_explicit ha
  obtain ⟨b0, b1, b2, b3, b4, b5, b6, b7, b8, b9, b10, b11, b12, b13, b14, b15, rfl,
    hb0, hb1, hb2, hb3, hb4, hb5, hb6, hb7, hb8, hb9, hb10, hb11, hb12, hb13, hb14, hb15⟩ := is_block_explicit hb
  have hr : List.range (BLOCK_SIZE / 4) = [0, 1, 2, 3] := by decide
  simp only [xor_128, hr, List.foldl_cons, List.foldl_nil, List.cons_append, List.nil_append,
    Nat.zero_mul, Nat.one_mul, List.drop_zero, List.drop_succ_cons, Nat.reduceMul]
  rw [store_load_xor bo a0 a1 a2 a3 b0 b1 b2 b3 _ _ ha0 ha1 ha2 ha3 hb0 hb1 hb2 hb3,
    store_load_xor bo a4 a5 a6 a7 b4 b5 b6 b7 _ _ ha4 ha5 ha6 ha7 hb4 hb5 hb6 hb7,
    store_load_xor bo a8 a9 a10 a11 b8 b9 b10 b11 _ _ ha8 ha9 ha10 ha11 hb8 hb9 hb10 hb11,
    store_load_xor bo a12 a13 a14 a15 b12 b13 b14 b15 _ _ ha12 ha13 ha14 ha15
      hb12 hb13 hb14 hb15]
  rfl

theorem xor_128_eq_xor_bytes (bo : ByteOrder) (a b : List Nat)
    (ha : is_block a) (hb : is_block b) :
    xor_128 bo a b = xor_bytes a b := by
  have h := xor_128_append bo a b [] ha hb
  rwa [List.append_nil] at h

/-! ## Doubling -/

theorem generate_subkey_K1 (bo : ByteOrder) (cbc_mac : cbc_mac_fn) (key : krb5_key)
    (h : (cbc_mac key (List.replicate BLOCK_SIZE 0) none BLOCK_SIZE).1 = 0) :
    (generate_subkey bo cbc_mac key).K1 =
      double_block bo
        (xor_128 bo const_Zero (cbc_mac key (List.replicate BLOCK_SIZE 0) none BLOCK_SIZE).2.1) := by
  unfold generate_subkey double_block
  simp only [h, ne_eq, not_true_eq_false, if_false]

theorem generate_subkey_K2 (bo : ByteOrder) (cbc_mac : cbc_mac_fn) (key : krb5_key)
    (h : (cbc_mac key (List.replicate BLOCK_SIZE 0) none BLOCK_SIZE).1 = 0) :
    (generate_subkey bo cbc_mac key).K2 = double_block bo (generate_subkey bo cbc_mac key).K1 := by
  unfold generate_subkey double_block
  simp only [h, ne_eq, not_true_eq_false, if_false]

theorem shift_byte (a b : Nat) (hb : b < 256) :
    (a <<< 1) % 256 ||| (if b &&& 0x80 ≠ 0 then 1 else 0) = 2 * a % 256 + b / 128 := by
  rw [msb_flag_eq b hb]
  exact shift_or a (b / 128) (by omega)

theorem shift_byte_last (a : Nat) : (a <<< 1) % 256 ||| 0 = 2 * a % 256 := by
  have h := shift_or a 0 (by omega)
  simpa using h

theorem xor_low_byte (h x y : Nat) (hx : x < 256) (hy : y < 256) :
    (h * 256 + x) ^^^ y = h * 256 + (x ^^^ y) := by
  have e := xor_mul_add 8 h 0 x y hx hy
  simp only [Nat.xor_zero, Nat.mul_zero, Nat.zero_add] at e
  have l1 : h * 256 + x = 2 ^ 8 * h + x := by ring
  have l2 : h * 256 + (x ^^^ y) = 2 ^ 8 * h + (x ^^^ y) := by ring
  rw [l1, l2, e]

/-- The bytes `leftshift_onebit` writes, as arithmetic on the input bytes. -/
theorem leftshift_onebit_explicit (a0 a1 a2 a3 a4 a5 a6 a7 a8 a9 a10 a11 a12 a13 a14 a15 : Nat)
    (ha1 : a1 < 256) (ha2 : a2 < 256) (ha3 : a3 < 256) (ha4 : a4 < 256) (ha5 : a5 < 256) (ha6 : a6 < 256) (ha7 : a7 < 256) (ha8 : a8 < 256) (ha9 : a9 < 256) (ha10 : a10 < 256) (ha11 : a11 < 256) (ha12 : a12 < 256) (ha13 : a13 < 256) (ha14 : a14 < 256) (ha15 : a15 < 256) :
    leftshift_onebit [a0, a1, a2, a3, a4, a5, a6, a7, a8, a9, a10, a11, a12, a13, a14, a15] =
      [2 * a0 % 256 + a1 / 128, 2 * a1 % 256 + a2 / 128, 2 * a2 % 256 + a3 / 128, 2 * a3 % 256 + a4 / 128, 2 * a4 % 256 + a5 / 128, 2 * a5 % 256 + a6 / 128, 2 * a6 % 256 + a7 / 128, 2 * a7 % 256 + a8 / 128, 2 * a8 % 256 + a9 / 128, 2 * a9 % 256 + a10 / 128, 2 * a10 % 256 + a11 / 128, 2 * a11 % 256 + a12 / 128, 2 * a12 % 256 + a13 / 128, 2 * a13 % 256 + a14 / 128, 2 * a14 % 256 + a15 / 128, 2 * a15 % 256] := by
  have hr : List.range BLOCK_SIZE = [0, 1, 2, 3, 4, 5, 6, 7, 8, 9, 10, 11, 12, 13, 14, 15] := by
    decide
  simp only [leftshift_onebit, hr, List.foldr_cons, List.foldr_nil, List.getD_cons_zero,
    List.getD_cons_succ]
  rw [shift_byte_last a15, shift_byte a0 a1 ha1, shift_byte a1 a2 ha2, shift_byte a2 a3 ha3, shift_byte a3 a4 ha4, shift_byte a4 a5 ha5, shift_byte a5 a6 ha6, shift_byte a6 a7 ha7, shift_byte a7 a8 ha8, shift_byte a8 a9 ha9, shift_byte a9 a10 ha10, shift_byte a10 a11 ha11, shift_byte a11 a12 ha12, shift_byte a12 a13 ha13, shift_byte a13 a14 ha14, shift_byte a14 a15 ha15]

theorem is_block_leftshift (x : List Nat) (hx : is_block x) :
    is_block (leftshift_onebit x) := by
  obtain ⟨a0, a1, a2, a3, a4, a5, a6, a7, a8, a9, a10, a11, a12, a13, a14, a15, rfl,
    ha0, ha1, ha2, ha3, ha4, ha5, ha6, ha7, ha8, ha9, ha10, ha11, ha12, ha13, ha14, ha15⟩ := is_block_explicit hx
  rw [leftshift_onebit_explicit a0 a1 a2 a3 a4 a5 a6 a7 a8 a9 a10 a11 a12 a13 a14 a15 ha1 ha2 ha3 ha4 ha5 ha6 ha7 ha8 ha9 ha10 ha11 ha12 ha13 ha14 ha15]
  refine ⟨rfl, ?_⟩
  intro y hy
  simp only [List.mem_cons, List.mem_singleton, List.not_mem_nil, or_false] at hy
  omega

/-- The function `leftshift_onebit` doubles the 128-bit integer modulo `2 ^ 128`. -/
theorem block_to_nat_leftshift (x : List Nat) (hx : is_block x) :
    block_to_nat (leftshift_onebit x) = 2 * block_to_nat x % 2 ^ 128 := by
  obtain ⟨a0, a1, a2, a3, a4, a5, a6, a7, a8, a9, a10, a11, a12, a13, a14, a15, rfl,
    ha0, ha1, ha2, ha3, ha4, ha5, ha6, ha7, ha8, ha9, ha10, ha11, ha12, ha13, ha14, ha15⟩ := is_block_explicit hx
  rw [leftshift_onebit_explicit a0 a1 a2 a3 a4 a5 a6 a7 a8 a9 a10 a11 a12 a13 a14 a15 ha1 ha2 ha3 ha4 ha5 ha6 ha7 ha8 ha9 ha10 ha11 ha12 ha13 ha14 ha15]
  simp only [block_to_nat, List.foldl_cons, List.foldl_nil]
  omega

theorem msb_iff (x : List Nat) (hx : is_block x) :
    x.getD 0 0 &&& 0x80 = 0 ↔ block_to_nat x < 2 ^ 127 := by
  obtain ⟨a0, a1, a2, a3, a4, a5, a6, a7, a8, a9, a10, a11, a12, a13, a14, a15, rfl,
    ha0, ha1, ha2, ha3, ha4, ha5, ha6, ha7, ha8, ha9, ha10, ha11, ha12, ha13, ha14, ha15⟩ := is_block_explicit hx
  simp only [List.getD_cons_zero, block_to_nat, List.foldl_cons, List.foldl_nil]
  rw [msb_zero_iff a0 ha0]
  omega

theorem nat_to_block_block_to_nat (x : List Nat) (hx : is_block x) :
    nat_to_block (block_to_nat x) = x := by
  obtain ⟨a0, a1, a2, a3, a4, a5, a6, a7, a8, a9, a10, a11, a12, a13, a14, a15, rfl,
    ha0, ha1, ha2, ha3, ha4, ha5, ha6, ha7, ha8, ha9, ha10, ha11, ha12, ha13, ha14, ha15⟩ := is_block_explicit hx
  have hr : List.range 16 = [0, 1, 2, 3, 4, 5, 6, 7, 8, 9, 10, 11, 12, 13, 14, 15] := by decide
  simp only [nat_to_block, block_to_nat, hr, List.foldl_cons, List.foldl_nil, List.map_cons,
    List.map_nil]
  norm_num
  refine ⟨?_, ?_, ?_, ?_, ?_, ?_, ?_, ?_, ?_, ?_, ?_, ?_, ?_, ?_, ?_, ?_⟩ <;> omega

theorem xor_const_Rb (x : List Nat) (hx : is_block x) :
    is_block (xor_bytes x const_Rb) ∧
      block_to_nat (xor_bytes x const_Rb) = block_to_nat x ^^^ 0x87 := by
  obtain ⟨a0, a1, a2, a3, a4, a5, a6, a7, a8, a9, a10, a11, a12, a13, a14, a15, rfl,
    ha0, ha1, ha2, ha3, ha4, ha5, ha6, ha7, ha8, ha9, ha10, ha11, ha12, ha13, ha14, ha15⟩ := is_block_explicit hx
  have hx15 : a15 ^^^ 0x87 < 256 := xor_byte_lt ha15 (by norm_num)
  simp only [xor_bytes, const_Rb, List.zipWith_cons_cons, List.zipWith_nil_right,
    Nat.xor_zero]
  constructor
  · refine ⟨rfl, ?_⟩
    intro y hy
    simp only [List.mem_cons, List.mem_singleton, List.not_mem_nil, or_false] at hy
    rcases hy with h | h | h | h | h | h | h | h | h | h | h | h | h | h | h | h <;> omega
  · simp only [block_to_nat, List.foldl_cons, List.foldl_nil]
    rw [xor_low_byte _ _ _ ha15 (by norm_num)]

theorem is_block_const_Rb : is_block const_Rb := by decide

theorem is_block_const_Zero : is_block const_Zero := by decide

/-- The doubling step of `generate_subkey` is the doubling of RFC 4493, and
yields a block. -/
theorem double_block_eq_rfc_dbl (bo : ByteOrder) (x : List Nat) (hx : is_block x) :
    double_block bo x = rfc_dbl x ∧ is_block (double_block bo x) := by
  have hs := is_block_leftshift x hx
  have hn := block_to_nat_leftshift x hx
  have hm := msb_iff x hx
  unfold double_block rfc_dbl
  by_cases h : x.getD 0 0 &&& 0x80 = 0
  · have hlt := hm.mp h
    rw [if_pos h, if_neg (by omega), Nat.xor_zero, ← hn, nat_to_block_block_to_nat _ hs]
    exact ⟨rfl, hs⟩
  · have hge : 2 ^ 127 ≤ block_to_nat x := by
      by_contra hc
      exact h (hm.mpr (by omega))
    obtain ⟨hb, hv⟩ := xor_const_Rb _ hs
    rw [if_neg h, if_pos hge, xor_128_eq_xor_bytes bo _ _ hs is_block_const_Rb, ← hn, ← hv,
      nat_to_block_block_to_nat _ hb]
    exact ⟨rfl, hb⟩

/-! ## Byte-wise XOR and padding -/

theorem xor_bytes_comm (a b : List Nat) : xor_bytes a b = xor_bytes b a :=
  List.zipWith_comm_of_comm _ Nat.xor_comm a b

theorem xor_bytes_assoc (a b c : List Nat) :
    xor_bytes (xor_bytes a b) c = xor_bytes a (xor_bytes b c) := by
  induction a generalizing b c with
  | nil => simp [xor_bytes]
  | cons x a ih =>
    cases b with
    | nil => simp [xor_bytes]
    | cons y b =>
      cases c with
      | nil => simp [xor_bytes]
      | cons z c =>
        have h := ih b c
        simp only [xor_bytes, List.zipWith_cons_cons, List.cons.injEq] at h ⊢
        exact ⟨Nat.xor_assoc x y z, h⟩

theorem xor_bytes_append_left (a tail b : List Nat) (h : a.length = b.length) :
    xor_bytes (a ++ tail) b = xor_bytes a b := by
  have e := List.zipWith_append (· ^^^ ·) a tail b [] h
  simpa [xor_bytes] using e

theorem is_block_xor_bytes (a b : List Nat) (ha : is_block a) (hb : is_block b) :
    is_block (xor_bytes a b) := by
  refine ⟨by simp [xor_bytes, ha.1, hb.1], ?_⟩
  intro x hx
  simp only [xor_bytes] at hx
  obtain ⟨i, hi, rfl⟩ := List.getElem_of_mem hx
  simp only [List.getElem_zipWith]
  exact xor_byte_lt (ha.2 _ (List.getElem_mem _)) (hb.2 _ (List.getElem_mem _))

theorem xor_bytes_zero_left (b : List Nat) (hb : b.length = 16) :
    xor_bytes const_Zero b = b := by
  have h : ∀ (n : Nat) (l : List Nat), l.length = n →
      List.zipWith (· ^^^ ·) (List.replicate n 0) l = l := by
    intro n
    induction n with
    | zero => intro l hl; simp [List.length_eq_zero.mp hl]
    | succ k ih =>
      intro l hl
      cases l with
      | nil => simp at hl
      | cons x l =>
        simp only [List.replicate_succ, List.zipWith_cons_cons, Nat.zero_xor,
          List.cons.injEq, true_and]
        exact ih l (by simpa using hl)
  have hz : const_Zero = List.replicate 16 0 := by decide
  rw [xor_bytes, hz]
  exact h 16 b hb

theorem pad_tail_getElem (k j : Nat) (hj : j < (0x80 :: List.replicate k 0).length) :
    (0x80 :: List.replicate k 0)[j] = if j = 0 then 0x80 else 0x00 := by
  cases j with
  | zero => rfl
  | succ j => simp only [List.getElem_cons_succ, List.getElem_replicate]; rfl

/-- On a chunk shorter than a block, whatever follows it in the buffer,
`padding` builds the padded block of RFC 4493. -/
theorem padding_eq_rfc_pad (chunk tail : List Nat) (h : chunk.length < 16) :
    padding (chunk ++ tail) (chunk.length : Int) = rfc_pad chunk := by
  apply List.ext_getElem
  · simp only [padding, rfc_pad, BLOCK_SIZE, List.length_map, List.length_range,
      List.length_append, List.length_cons, List.length_replicate]
    omega
  · intro i h1 h2
    simp only [padding, BLOCK_SIZE, List.length_map, List.length_range] at h1
    simp only [padding, rfc_pad, List.getElem_map, List.getElem_range]
    by_cases hi : i < chunk.length
    · have hi' : (i : Int) < (chunk.length : Int) := by exact_mod_cast hi
      rw [if_pos hi', List.getElem_append_left hi, List.getD_eq_getElem?_getD,
        List.getElem?_append_left hi, List.getElem?_eq_getElem hi]
      rfl
    · have hi' : ¬ (i : Int) < (chunk.length : Int) := by exact_mod_cast hi
      rw [if_neg hi', List.getElem_append_right (by omega)]
      rw [pad_tail_getElem]
      by_cases he : i = chunk.length
      · have he' : (i : Int) = (chunk.length : Int) := by exact_mod_cast he
        rw [if_pos he', if_pos (by omega)]
      · have he' : ¬ (i : Int) = (chunk.length : Int) := by exact_mod_cast he
        rw [if_neg he', if_neg (by omega)]

theorem is_block_rfc_pad (m : List Nat) (h : m.length < 16) (hm : ∀ x ∈ m, x < 256) :
    is_block (rfc_pad m) := by
  refine ⟨by simp only [rfc_pad, List.length_append, List.length_cons,
    List.length_replicate]; omega, ?_⟩
  intro x hx
  simp only [rfc_pad, List.mem_append, List.mem_cons, List.mem_replicate] at hx
  rcases hx with h1 | h1 | h1
  · exact hm x h1
  · omega
  · omega

/-! ## The driver as a function of the signed bytes -/

/-- In a well-formed segment list the true signed length is the number of
signed bytes. -/
theorem signed_total_eq_length (data : List krb5_crypto_iov) (h : well_formed data) :
    signed_total data = (signed_bytes data).length := by
  induction data with
  | nil => rfl
  | cons piov rest ih =>
    have hrest : well_formed rest := fun q hq hs => h q (List.mem_cons_of_mem _ hq) hs
    simp only [signed_total, signed_bytes]
    by_cases hs : SIGN_IOV piov = true
    · have hle := h piov (List.mem_cons_self _ _) hs
      simp only [hs, if_true, List.length_append, iov_bytes, List.length_take, ih hrest]
      omega
    · simp only [hs, if_false, Bool.false_eq_true]
      exact ih hrest

theorem get_block_congr (block : List Nat) (block_size : Nat)
    (data₁ data₂ : List krb5_crypto_iov) (st : iov_block_state)
    (h : signed_bytes data₁ = signed_bytes data₂) :
    krb5int_c_iov_get_block block block_size data₁ st =
      krb5int_c_iov_get_block block block_size data₂ st := by
  unfold krb5int_c_iov_get_block
  rw [h]

theorem block_loop_congr (cbc_mac : cbc_mac_fn) (key : krb5_key)
    (data₁ data₂ : List krb5_crypto_iov) (h : signed_bytes data₁ = signed_bytes data₂) :
    ∀ (count : Nat) (s : loop_state),
      block_loop cbc_mac key data₁ count s = block_loop cbc_mac key data₂ count s := by
  intro count
  induction count with
  | zero => intro s; rfl
  | succ k ih =>
    intro s
    simp only [block_loop, get_block_congr _ _ data₁ data₂ _ h, ih]

/-- The driver reads the segment list only through the `unsigned int` sum of
the signed lengths and through the signed bytes. -/
theorem cmac_congr (bo : ByteOrder) (ctp : krb5_cksumtypes) (key : krb5_key)
    (usage : Int) (data₁ data₂ : List krb5_crypto_iov) (output : krb5_data)
    (stack : List Nat)
    (hlen : signed_length data₁ = signed_length data₂)
    (hbytes : signed_bytes data₁ = signed_bytes data₂) :
    krb5int_cmac_checksum bo ctp key usage data₁ output stack =
      krb5int_cmac_checksum bo ctp key usage data₂ output stack := by
  cases hcm : ctp.enc.cbc_mac with
  | none =>
    rw [krb5int_cmac_checksum_null _ _ _ _ _ _ _ hcm,
      krb5int_cmac_checksum_null _ _ _ _ _ _ _ hcm]
  | some cbc_mac =>
    have hlp : loop_exit bo cbc_mac key data₁ stack = loop_exit bo cbc_mac key data₂ stack := by
      unfold loop_exit
      rw [hlen, block_loop_congr cbc_mac key data₁ data₂ hbytes]
    have hfc : final_chunk bo cbc_mac key data₁ stack =
        final_chunk bo cbc_mac key data₂ stack := by
      unfold final_chunk
      rw [hlp, get_block_congr _ _ data₁ data₂ _ hbytes]
    have hml : M_last bo cbc_mac key data₁ stack = M_last bo cbc_mac key data₂ stack := by
      unfold M_last
      rw [hlen, hfc]
    have hcall : final_call bo cbc_mac key data₁ stack =
        final_call bo cbc_mac key data₂ stack := by
      unfold final_call
      rw [hml, hlp]
    rw [krb5int_cmac_checksum_eq _ _ _ _ _ _ _ cbc_mac hcm,
      krb5int_cmac_checksum_eq _ _ _ _ _ _ _ cbc_mac hcm, hlp, hcall]

theorem same_signed_lists (data₁ data₂ : List krb5_crypto_iov)
    (h : List.Forall₂ same_signed data₁ data₂) :
    signed_total data₁ = signed_total data₂ ∧ signed_bytes data₁ = signed_bytes data₂ := by
  induction h with
  | nil => exact ⟨rfl, rfl⟩
  | @cons a b l₁ l₂ hab _ ih =>
    obtain ⟨hflag, hsig⟩ := hab
    simp only [signed_total, signed_bytes]
    by_cases hs : SIGN_IOV a = true
    · have hs' : SIGN_IOV b = true := by rw [← hflag]; exact hs
      obtain ⟨hl, hb⟩ := hsig hs
      simp only [hs, hs', if_true, hl, hb, ih.1, ih.2, and_self]
    · have hs' : ¬ SIGN_IOV b = true := by rw [← hflag]; exact hs
      simp only [hs, hs', if_false, Bool.false_eq_true]
      exact ih

/-! ## The driver against RFC 4493 -/

/-- With a provider computing `E (block XOR iv)`, `count` iterations of the
block loop over full chunks compute the chaining of RFC 4493 and advance the
cursor by `16 * count` bytes. -/
theorem block_loop_rfc (E : List Nat → List Nat) (cbc_mac : cbc_mac_fn)
    (key : krb5_key) (data : List krb5_crypto_iov)
    (hE : ∀ b, is_block (E b))
    (hprov : ∀ block ivec,
      cbc_mac key block ivec 16 = (0, E (xor_bytes block (ivec.getD const_Zero)), 16)) :
    ∀ (count : Nat) (s : loop_state), s.Y.length = 16 → s.d_length = 16 →
      s.iov_state.consumed + 16 * count ≤ (signed_bytes data).length →
      (block_loop cbc_mac key data count s).Y =
          rfc_chain E count s.Y ((signed_bytes data).drop s.iov_state.consumed) ∧
        (block_loop cbc_mac key data count s).iov_state.consumed =
          s.iov_state.consumed + 16 * count ∧
        (block_loop cbc_mac key data count s).Y.length = 16 ∧
        (block_loop cbc_mac key data count s).d_length = 16 := by
  intro count
  induction count with
  | zero =>
    intro s hY hd _
    exact ⟨rfl, rfl, hY, hd⟩
  | succ k ih =>
    intro s hY hd hlen
    have hchunk : (((signed_bytes data).drop s.iov_state.consumed).take BLOCK_SIZE).length
        = 16 := by
      simp only [BLOCK_SIZE, List.length_take, List.length_drop]
      omega
    have hgb : xor_bytes (krb5int_c_iov_get_block s.input BLOCK_SIZE data s.iov_state).1 s.Y =
        xor_bytes s.Y (((signed_bytes data).drop s.iov_state.consumed).take 16) := by
      unfold krb5int_c_iov_get_block
      simp only
      rw [xor_bytes_append_left _ _ _ (by rw [hchunk, hY]), xor_bytes_comm]
      rfl
    have hcons : (krb5int_c_iov_get_block s.input BLOCK_SIZE data s.iov_state).2.consumed =
        s.iov_state.consumed + 16 := by
      unfold krb5int_c_iov_get_block
      simp only [hchunk]
    simp only [block_loop, hd, hprov, Option.getD_some, ne_eq, not_true_eq_false, if_false]
    obtain ⟨h1, h2, h3⟩ := ih
      { ret := 0
        Y := E (xor_bytes (krb5int_c_iov_get_block s.input BLOCK_SIZE data s.iov_state).1 s.Y)
        d_length := 16
        input := (krb5int_c_iov_get_block s.input BLOCK_SIZE data s.iov_state).1
        iov_state := (krb5int_c_iov_get_block s.input BLOCK_SIZE data s.iov_state).2
        calls := s.calls ++
          [{ data := (krb5int_c_iov_get_block s.input BLOCK_SIZE data s.iov_state).1
             ivec := some s.Y
             length := 16
             ret := 0
             out := E (xor_bytes
               (krb5int_c_iov_get_block s.input BLOCK_SIZE data s.iov_state).1 s.Y)
             out_length := 16 }] }
      (hE _).1 rfl (by simp only [hcons]; omega)
    refine ⟨?_, ?_, h3⟩
    · rw [h1]
      simp only [hcons, hgb, rfc_chain, List.drop_drop]
    · rw [h2]
      simp only [hcons]
      omega

/-- With a provider computing `E (block XOR iv)`, `generate_subkey` succeeds
with the subkeys of RFC 4493. -/
theorem generate_subkey_rfc (bo : ByteOrder) (E : List Nat → List Nat)
    (cbc_mac : cbc_mac_fn) (key : krb5_key)
    (hE : ∀ b, is_block (E b))
    (hprov : ∀ block ivec,
      cbc_mac key block ivec 16 = (0, E (xor_bytes block (ivec.getD const_Zero)), 16)) :
    (generate_subkey bo cbc_mac key).K1 = rfc_dbl (E (List.replicate 16 0)) ∧
      (generate_subkey bo cbc_mac key).K2 = rfc_dbl (rfc_dbl (E (List.replicate 16 0))) ∧
      is_block (rfc_dbl (E (List.replicate 16 0))) ∧
      is_block (rfc_dbl (rfc_dbl (E (List.replicate 16 0)))) := by
  have hcall : cbc_mac key (List.replicate BLOCK_SIZE 0) none BLOCK_SIZE =
      (0, E (List.replicate 16 0), 16) := by
    show cbc_mac key (List.replicate BLOCK_SIZE 0) none 16 = _
    rw [hprov]
    rfl
  have hL := hE (List.replicate 16 0)
  have hx : xor_128 bo const_Zero (E (List.replicate 16 0)) = E (List.replicate 16 0) := by
    rw [xor_128_eq_xor_bytes bo _ _ is_block_const_Zero hL, xor_bytes_zero_left _ hL.1]
  obtain ⟨hd1, hb1⟩ := double_block_eq_rfc_dbl bo _ hL
  have hK1 : (generate_subkey bo cbc_mac key).K1 = rfc_dbl (E (List.replicate 16 0)) := by
    rw [generate_subkey_K1 bo cbc_mac key (by rw [hcall]), hcall]
    simp only [hx, hd1]
  rw [hd1] at hb1
  obtain ⟨hd2, hb2⟩ := double_block_eq_rfc_dbl bo _ hb1
  have hK2 : (generate_subkey bo cbc_mac key).K2 =
      rfc_dbl (rfc_dbl (E (List.replicate 16 0))) := by
    rw [generate_subkey_K2 bo cbc_mac key (by rw [hcall]), hK1, hd2]
  rw [hd2] at hb2
  exact ⟨hK1, hK2, hb1, hb2⟩

theorem is_block_toy_E (b : List Nat) : is_block (toy_E b) := by
  refine ⟨by simp [toy_E, BLOCK_SIZE], ?_⟩
  intro x hx
  simp only [toy_E, List.mem_map] at hx
  obtain ⟨i, _, rfl⟩ := hx
  exact Nat.mod_lt _ (by norm_num)

/-! ## Padding, byte by byte -/

/-- Byte `i` of what `padding` writes. -/
theorem padding_getD (lastb : List Nat) (length : Int) (i : Nat) (hi : i < 16) :
    (padding lastb length).getD i 0 =
      if (i : Int) < length then lastb.getD i 0
      else if (i : Int) = length then 0x80
      else 0x00 := by
  unfold padding
  rw [List.getD_eq_getElem?_getD, List.getElem?_map, List.getElem?_range (by simpa [BLOCK_SIZE] using hi)]
  rfl

theorem padding_length (lastb : List Nat) (length : Int) : (padding lastb length).length = 16 := by
  simp [padding, BLOCK_SIZE]

/-- Two buffers of 16 bytes with the same bytes are the same. -/
theorem ext_getD_16 (x y : List Nat) (hx : x.length = 16) (hy : y.length = 16)
    (h : ∀ i, i < 16 → x.getD i 0 = y.getD i 0) : x = y := by
  apply List.ext_getElem (by rw [hx, hy])
  intro i h1 h2
  have hi : i < 16 := by omega
  have e := h i hi
  rw [List.getD_eq_getElem?_getD, List.getD_eq_getElem?_getD, List.getElem?_eq_getElem h1,
    List.getElem?_eq_getElem h2] at e
  simpa using e

/-- The function `padding` reads only the first `length` bytes of `lastb`. -/
theorem padding_congr (a b : List Nat) (length : Int)
    (h : ∀ i : Nat, (i : Int) < length → a.getD i 0 = b.getD i 0) :
    padding a length = padding b length := by
  apply ext_getD_16 _ _ (padding_length _ _) (padding_length _ _)
  intro i hi
  rw [padding_getD _ _ _ hi, padding_getD _ _ _ hi]
  split_ifs with h1
  · exact h i h1
  · rfl
  · rfl

/-! ## Independence of the uninitialised chunk buffer and of the output bytes -/

/-- In a well-formed segment list the signed bytes suffice for the `n - 1`
full chunks of the block loop. -/
theorem loop_bound (data : List krb5_crypto_iov) (hwf : well_formed data) :
    signed_length data ≤ (signed_bytes data).length ∧
      16 * (block_count (signed_length data) - 1) ≤ signed_length data := by
  have h1 : signed_length data ≤ (signed_bytes data).length := by
    rw [signed_length_eq, signed_total_eq_length _ hwf]
    exact Nat.mod_le _ _
  refine ⟨h1, ?_⟩
  unfold block_count
  simp only [BLOCK_SIZE]
  split_ifs <;> omega

/-- A full chunk pulled into a buffer of at most 16 bytes does not depend on
what the buffer held. -/
theorem get_block_full (block block' : List Nat) (data : List krb5_crypto_iov)
    (st : iov_block_state) (hb : block.length ≤ 16) (hb' : block'.length ≤ 16)
    (hfull : st.consumed + 16 ≤ (signed_bytes data).length) :
    krb5int_c_iov_get_block block BLOCK_SIZE data st =
      krb5int_c_iov_get_block block' BLOCK_SIZE data st := by
  have hchunk : (((signed_bytes data).drop st.consumed).take BLOCK_SIZE).length = 16 := by
    simp only [BLOCK_SIZE, List.length_take, List.length_drop]
    omega
  unfold krb5int_c_iov_get_block
  simp only [hchunk, List.drop_eq_nil_of_le hb, List.drop_eq_nil_of_le hb']

/-- At least one iteration of the block loop over full chunks erases what the
chunk buffer held on entry. -/
theorem block_loop_input_indep (cbc_mac : cbc_mac_fn) (key : krb5_key)
    (data : List krb5_crypto_iov) (count : Nat) (s : loop_state) (input' : List Nat)
    (hb : s.input.length ≤ 16) (hb' : input'.length ≤ 16)
    (hfull : s.iov_state.consumed + 16 ≤ (signed_bytes data).length) :
    block_loop cbc_mac key data (count + 1) s =
      block_loop cbc_mac key data (count + 1) { s with input := input' } := by
  simp only [block_loop, get_block_full s.input input' data s.iov_state hb hb' hfull]

/-- For a well-formed segment list the driver does not read what the array
`input` held on entry. -/
theorem cmac_stack_indep (bo : ByteOrder) (ctp : krb5_cksumtypes) (key : krb5_key)
    (usage : Int) (data : List krb5_crypto_iov) (output : krb5_data)
    (stack stack' : List Nat) (hwf : well_formed data)
    (hs : stack.length ≤ 16) (hs' : stack'.length ≤ 16) :
    krb5int_cmac_checksum bo ctp key usage data output stack =
      krb5int_cmac_checksum bo ctp key usage data output stack' := by
  cases hcm : ctp.enc.cbc_mac with
  | none =>
    rw [krb5int_cmac_checksum_null _ _ _ _ _ _ _ hcm,
      krb5int_cmac_checksum_null _ _ _ _ _ _ _ hcm]
  | some cbc_mac =>
    obtain ⟨hle, hbound⟩ := loop_bound data hwf
    have hlt := signed_length_lt data
    rw [krb5int_cmac_checksum_eq _ _ _ _ _ _ _ cbc_mac hcm,
      krb5int_cmac_checksum_eq _ _ _ _ _ _ _ cbc_mac hcm]
    by_cases hn : block_count (signed_length data) - 1 = 0
    · -- no iteration: the chunk buffer still holds what it held on entry
      have hl : ∀ st : List Nat, loop_exit bo cbc_mac key data st =
          { ret := 0, Y := List.replicate BLOCK_SIZE 0, d_length := BLOCK_SIZE,
            input := st, iov_state := IOV_BLOCK_STATE_INIT,
            calls := (generate_subkey bo cbc_mac key).calls } := by
        intro st; unfold loop_exit; rw [hn]; rfl
      have hml : M_last bo cbc_mac key data stack = M_last bo cbc_mac key data stack' := by
        unfold M_last final_chunk krb5int_c_iov_get_block
        simp only [hl, IOV_BLOCK_STATE_INIT, List.drop_zero, BLOCK_SIZE]
        by_cases hf : last_block_flag (signed_length data) = true
        · have h16 := (last_block_flag_iff _ hlt).mp hf
          have hfullc : ((signed_bytes data).take 16).length = 16 := by
            rw [List.length_take]
            unfold block_count at hn
            simp only [BLOCK_SIZE] at hn
            split_ifs at hn <;> omega
          simp only [hf, if_true, hfullc, List.drop_eq_nil_of_le hs,
            List.drop_eq_nil_of_le hs']
        · simp only [hf, if_false, Bool.false_eq_true]
          congr 1
          apply padding_congr
          intro i hi
          have hi' : i < signed_length data % 16 := by exact_mod_cast hi
          have hic : i < ((signed_bytes data).take 16).length := by
            rw [List.length_take]; omega
          rw [List.getD_eq_getElem?_getD, List.getD_eq_getElem?_getD,
            List.getElem?_append_left hic, List.getElem?_append_left hic]
      have hfc : final_call bo cbc_mac key data stack = final_call bo cbc_mac key data stack' := by
        unfold final_call
        simp only [hml, hl]
      simp only [hl, hfc]
    · have hle' : loop_exit bo cbc_mac key data stack = loop_exit bo cbc_mac key data stack' := by
        unfold loop_exit
        obtain ⟨k, hk⟩ : ∃ k, block_count (signed_length data) - 1 = k + 1 :=
          ⟨block_count (signed_length data) - 1 - 1, by omega⟩
        rw [hk]
        exact block_loop_input_indep cbc_mac key data k _ stack' hs hs'
          (by simp only [IOV_BLOCK_STATE_INIT]; omega)
      have hfc : final_call bo cbc_mac key data stack = final_call bo cbc_mac key data stack' := by
        unfold final_call M_last final_chunk
        simp only [hle']
      rw [hle', hfc]

/-- The driver reads of the output buffer only its `length` field: status and
trace do not depend on the bytes, and on success both buffers receive the
same tag, of the same length, in front of their own remaining bytes. -/
theorem cmac_output_indep (bo : ByteOrder) (ctp : krb5_cksumtypes) (key : krb5_key)
    (usage usage' : Int) (data : List krb5_crypto_iov) (output output' : krb5_data)
    (stack : List Nat) (hcap : output.length = output'.length) :
    (krb5int_cmac_checksum bo ctp key usage data output stack).outcome =
        (krb5int_cmac_checksum bo ctp key usage' data output' stack).outcome ∧
      (krb5int_cmac_checksum bo ctp key usage data output stack).calls =
        (krb5int_cmac_checksum bo ctp key usage' data output' stack).calls ∧
      ((krb5int_cmac_checksum bo ctp key usage data output stack).outcome = .returned 0 →
        ∃ length tag,
          (krb5int_cmac_checksum bo ctp key usage data output stack).output =
            { length := length, data := tag ++ output.data.drop length } ∧
          (krb5int_cmac_checksum bo ctp key usage' data output' stack).output =
            { length := length, data := tag ++ output'.data.drop length }) := by
  cases hcm : ctp.enc.cbc_mac with
  | none =>
    rw [krb5int_cmac_checksum_null _ _ _ _ _ _ _ hcm,
      krb5int_cmac_checksum_null _ _ _ _ _ _ _ hcm]
    exact ⟨rfl, rfl, fun h => by simp at h⟩
  | some cbc_mac =>
    rw [krb5int_cmac_checksum_eq _ _ _ _ _ _ _ cbc_mac hcm,
      krb5int_cmac_checksum_eq _ _ _ _ _ _ _ cbc_mac hcm, ← hcap]
    split_ifs with h1 h2 h3 h4 h5
    · exact ⟨rfl, rfl, fun h => by simp [KRB5_BAD_MSIZE] at h⟩
    · exact ⟨rfl, rfl, fun h => by simp only [Outcome.returned.injEq] at h; exact absurd h h2⟩
    · exact ⟨rfl, rfl, fun h => by simp only [Outcome.returned.injEq] at h; exact absurd h h3⟩
    · exact ⟨rfl, rfl, fun h => by simp only [Outcome.returned.injEq] at h; exact absurd h h4⟩
    · exact ⟨rfl, rfl, fun _ => ⟨_, _, rfl, rfl⟩⟩
    · exact ⟨rfl, rfl, fun h => by simp at h⟩

/-! ## The doubling on integers -/

theorem block_to_nat_lt (x : List Nat) (hx : is_block x) : block_to_nat x < 2 ^ 128 := by
  obtain ⟨a0, a1, a2, a3, a4, a5, a6, a7, a8, a9, a10, a11, a12, a13, a14, a15, rfl,
    ha0, ha1, ha2, ha3, ha4, ha5, ha6, ha7, ha8, ha9, ha10, ha11, ha12, ha13, ha14, ha15⟩ :=
    is_block_explicit hx
  simp only [block_to_nat, List.foldl_cons, List.foldl_nil]
  omega

/-- The doubling step of `generate_subkey`, read on 128-bit integers. -/
theorem block_to_nat_double_block (bo : ByteOrder) (x : List Nat) (hx : is_block x) :
    block_to_nat (double_block bo x) =
      (2 * block_to_nat x % 2 ^ 128) ^^^ (if 2 ^ 127 ≤ block_to_nat x then 0x87 else 0) := by
  have hs := is_block_leftshift x hx
  have hn := block_to_nat_leftshift x hx
  have hm := msb_iff x hx
  unfold double_block
  by_cases h : x.getD 0 0 &&& 0x80 = 0
  · have hlt := hm.mp h
    rw [if_pos h, if_neg (by omega), Nat.xor_zero, hn]
  · have hge : 2 ^ 127 ≤ block_to_nat x := by
      by_contra hc
      exact h (hm.mpr (by omega))
    rw [if_neg h, if_pos hge, xor_128_eq_xor_bytes bo _ _ hs is_block_const_Rb,
      (xor_const_Rb _ hs).2, hn]

/-- Doubling on integers below `2 ^ 128`, split by the top bit: an even number
when the top bit is clear, an odd number when it is set. -/
theorem dbl_nat_cases (N : Nat) (hN : N < 2 ^ 128) :
    (2 * N % 2 ^ 128) ^^^ (if 2 ^ 127 ≤ N then 0x87 else 0) =
      if 2 ^ 127 ≤ N then 2 * ((N - 2 ^ 127) ^^^ 67) + 1 else 2 * N := by
  by_cases h : 2 ^ 127 ≤ N
  · rw [if_pos h, if_pos h]
    have e := xor_mul_add 1 (N - 2 ^ 127) 67 0 1 (by norm_num) (by norm_num)
    have l1 : 2 * N % 2 ^ 128 = 2 ^ 1 * (N - 2 ^ 127) + 0 := by omega
    have l2 : (0x87 : Nat) = 2 ^ 1 * 67 + 1 := by norm_num
    rw [l1, l2, e]
    simp
  · rw [if_neg h, if_neg h, Nat.xor_zero]
    omega

theorem dbl_nat_injective (M N : Nat) (hM : M < 2 ^ 128) (hN : N < 2 ^ 128)
    (h : (2 * M % 2 ^ 128) ^^^ (if 2 ^ 127 ≤ M then 0x87 else 0) =
      (2 * N % 2 ^ 128) ^^^ (if 2 ^ 127 ≤ N then 0x87 else 0)) : M = N := by
  rw [dbl_nat_cases M hM, dbl_nat_cases N hN] at h
  by_cases h1 : 2 ^ 127 ≤ M <;> by_cases h2 : 2 ^ 127 ≤ N
  · rw [if_pos h1, if_pos h2] at h
    have h3 : (M - 2 ^ 127) ^^^ 67 = (N - 2 ^ 127) ^^^ 67 := by omega
    have h4 : M - 2 ^ 127 = N - 2 ^ 127 := by
      have := congrArg (· ^^^ 67) h3
      simpa [Nat.xor_assoc] using this
    omega
  · rw [if_pos h1, if_neg h2] at h; omega
  · rw [if_neg h1, if_pos h2] at h; omega
  · rw [if_neg h1, if_neg h2] at h; omega

/-- The doubling step of `generate_subkey` is injective on blocks. -/
theorem double_block_injective (bo : ByteOrder) (x y : List Nat)
    (hx : is_block x) (hy : is_block y)
    (h : double_block bo x = double_block bo y) : x = y := by
  have e := congrArg block_to_nat h
  rw [block_to_nat_double_block bo x hx, block_to_nat_double_block bo y hy] at e
  have hxy := dbl_nat_injective _ _ (block_to_nat_lt x hx) (block_to_nat_lt y hy) e
  rw [← nat_to_block_block_to_nat x hx, ← nat_to_block_block_to_nat y hy, hxy]

/-! ## The subkeys are blocks -/

theorem shift_or_flag_lt (a b : Nat) :
    (a <<< 1) % 256 ||| (if b &&& 0x80 ≠ 0 then 1 else 0) < 256 := by
  have hc : (if b &&& 0x80 ≠ 0 then 1 else 0) < 2 := by split_ifs <;> omega
  rw [shift_or a _ hc]
  omega

/-- Whatever it is given, `leftshift_onebit` writes sixteen bytes. -/
theorem is_block_leftshift_any (x : List Nat) : is_block (leftshift_onebit x) := by
  have hr : List.range BLOCK_SIZE = [0, 1, 2, 3, 4, 5, 6, 7, 8, 9, 10, 11, 12, 13, 14, 15] := by
    decide
  simp only [leftshift_onebit, hr, List.foldr_cons, List.foldr_nil]
  refine ⟨rfl, ?_⟩
  intro y hy
  simp only [List.mem_cons, List.mem_singleton, List.not_mem_nil, or_false] at hy
  rcases hy with h | h | h | h | h | h | h | h | h | h | h | h | h | h | h | h
  all_goals first
    | (rw [h]; exact shift_or_flag_lt _ _)
    | (rw [h, shift_byte_last]; omega)

/-- Whatever it is given, the doubling step of `generate_subkey` yields a
block. -/
theorem is_block_double_block_any (bo : ByteOrder) (x : List Nat) :
    is_block (double_block bo x) := by
  unfold double_block
  split_ifs
  · exact is_block_leftshift_any x
  · rw [xor_128_eq_xor_bytes bo _ _ (is_block_leftshift_any x) is_block_const_Rb]
    exact is_block_xor_bytes _ _ (is_block_leftshift_any x) is_block_const_Rb

/-- With a provider that, handed a descriptor of 16 bytes, leaves its length
at 16, `d.length` is 16 throughout the block loop. -/
theorem block_loop_d_length (cbc_mac : cbc_mac_fn) (key : krb5_key)
    (data : List krb5_crypto_iov)
    (hkeep : ∀ block ivec, (cbc_mac key block ivec 16).2.2 = 16) :
    ∀ (count : Nat) (s : loop_state), s.d_length = 16 →
      (block_loop cbc_mac key data count s).d_length = 16 := by
  intro count
  induction count with
  | zero => intro s hd; exact hd
  | succ k ih =>
    intro s hd
    simp only [block_loop]
    split_ifs with h
    · exact hd
    · apply ih
      simp only [hd]
      exact hkeep _ _

/-- With such a provider the last invocation is handed a descriptor of 16
bytes and leaves it at 16. -/
theorem final_call_length (bo : ByteOrder) (cbc_mac : cbc_mac_fn) (key : krb5_key)
    (data : List krb5_crypto_iov) (stack : List Nat)
    (hkeep : ∀ block ivec, (cbc_mac key block ivec 16).2.2 = 16) :
    (final_call bo cbc_mac key data stack).length = 16 ∧
      (final_call bo cbc_mac key data stack).out_length = 16 := by
  have hd : (loop_exit bo cbc_mac key data stack).d_length = 16 :=
    block_loop_d_length cbc_mac key data hkeep _ _ rfl
  refine ⟨hd, ?_⟩
  simp only [final_call, hd]
  exact hkeep _ _

/-- With a provider that, handed a descriptor of 16 bytes, succeeds and leaves
its length at 16, the block loop ends with code `0`. -/
theorem block_loop_ok (cbc_mac : cbc_mac_fn) (key : krb5_key)
    (data : List krb5_crypto_iov)
    (hok : ∀ block ivec, (cbc_mac key block ivec 16).1 = 0)
    (hkeep : ∀ block ivec, (cbc_mac key block ivec 16).2.2 = 16) :
    ∀ (count : Nat) (s : loop_state), s.ret = 0 → s.d_length = 16 →
      (block_loop cbc_mac key data count s).ret = 0 := by
  intro count
  induction count with
  | zero => intro s hr _; exact hr
  | succ k ih =>
    intro s _ hd
    simp only [block_loop, hd, hok, ne_eq, not_true_eq_false, if_false]
    exact ih _ rfl (hkeep _ _)

/-- With such a provider and block size 16, the driver ends in its last two
lines: the assertion, which compares the capacity with 16, then the copy of
the 16 bytes of the tag. -/
theorem cmac_of_provider_ok_16 (bo : ByteOrder) (ctp : krb5_cksumtypes) (key : krb5_key)
    (usage : Int) (data : List krb5_crypto_iov) (output : krb5_data) (stack : List Nat)
    (cbc_mac : cbc_mac_fn) (hcm : ctp.enc.cbc_mac = some cbc_mac)
    (hbs : ctp.enc.block_size = BLOCK_SIZE)
    (hok : ∀ block ivec, (cbc_mac key block ivec 16).1 = 0)
    (hkeep : ∀ block ivec, (cbc_mac key block ivec 16).2.2 = 16) :
    krb5int_cmac_checksum bo ctp key usage data output stack =
      (if ¬ (output.length ≥ 16) then
        { outcome := .assert_failed 234, output := output,
          calls := (loop_exit bo cbc_mac key data stack).calls ++
            [final_call bo cbc_mac key data stack] }
      else
        { outcome := .returned 0,
          output := { length := 16,
                      data := (final_call bo cbc_mac key data stack).out.take 16 ++
                        output.data.drop 16 },
          calls := (loop_exit bo cbc_mac key data stack).calls ++
            [final_call bo cbc_mac key data stack] }) := by
  have hsk : (generate_subkey bo cbc_mac key).ret = 0 := by
    rw [generate_subkey_ret]; exact hok _ _
  have hlp : (loop_exit bo cbc_mac key data stack).ret = 0 :=
    block_loop_ok cbc_mac key data hok hkeep _ _ rfl rfl
  obtain ⟨hin, hout⟩ := final_call_length bo cbc_mac key data stack hkeep
  have hfc : (final_call bo cbc_mac key data stack).ret = 0 := by
    have hd : (loop_exit bo cbc_mac key data stack).d_length = 16 := hin
    simp only [final_call, hd]
    exact hok _ _
  rw [krb5int_cmac_checksum_eq bo ctp key usage data output stack cbc_mac hcm]
  simp only [hbs, hsk, hlp, hfc, hout, ne_eq, not_true_eq_false, if_false]

/-! ## The XOR on a memory: what is written, and where -/

theorem store_32_n_length (bo : ByteOrder) (val : Nat) : (store_32_n bo val).length = 4 := by
  cases bo <;> rfl

theorem store_bytes_frame (mem : Nat → Nat) (p : Nat) (bytes : List Nat) (q : Nat)
    (h : q < p ∨ p + bytes.length ≤ q) : store_bytes mem p bytes q = mem q := by
  unfold store_bytes
  rw [if_neg (by omega)]

theorem load_store_disjoint (mem : Nat → Nat) (p n q : Nat) (bytes : List Nat)
    (h : p + n ≤ q ∨ q + bytes.length ≤ p) :
    load_bytes (store_bytes mem q bytes) p n = load_bytes mem p n := by
  unfold load_bytes
  apply List.map_congr_left
  intro i hi
  have hi' : i < n := List.mem_range.mp hi
  exact store_bytes_frame mem q bytes (p + i) (by omega)

theorem load_store_same (mem : Nat → Nat) (p : Nat) (bytes : List Nat) :
    load_bytes (store_bytes mem p bytes) p bytes.length = bytes := by
  apply List.ext_getElem (by simp [load_bytes])
  intro i h1 h2
  simp only [load_bytes, List.getElem_map, List.getElem_range, store_bytes]
  rw [if_pos (by omega), Nat.add_sub_cancel_left, List.getD_eq_getElem?_getD,
    List.getElem?_eq_getElem h2]
  rfl

theorem load_store_same_len (mem : Nat → Nat) (p n : Nat) (bytes : List Nat)
    (h : bytes.length = n) : load_bytes (store_bytes mem p bytes) p n = bytes := by
  rw [← h]; exact load_store_same mem p bytes

theorem load_bytes_16 (mem : Nat → Nat) (p : Nat) :
    load_bytes mem p 16 =
      load_bytes mem p 4 ++ load_bytes mem (p + 4) 4 ++ load_bytes mem (p + 8) 4 ++
        load_bytes mem (p + 12) 4 := by
  have h16 : List.range 16 = [0, 1, 2, 3, 4, 5, 6, 7, 8, 9, 10, 11, 12, 13, 14, 15] := by
    decide
  have h4 : List.range 4 = [0, 1, 2, 3] := by decide
  simp only [load_bytes, h16, h4, List.map_cons, List.map_nil, List.cons_append,
    List.nil_append, Nat.add_assoc, Nat.reduceAdd]

/-- The value-level `xor_128` on the 16 bytes at `a` and `b`, word by word. -/
theorem xor_128_load (bo : ByteOrder) (mem : Nat → Nat) (a b : Nat) :
    xor_128 bo (load_bytes mem a 16) (load_bytes mem b 16) =
      store_32_n bo (load_32_n bo (load_bytes mem a 4) ^^^ load_32_n bo (load_bytes mem b 4)) ++
      store_32_n bo
        (load_32_n bo (load_bytes mem (a + 4) 4) ^^^ load_32_n bo (load_bytes mem (b + 4) 4)) ++
      store_32_n bo
        (load_32_n bo (load_bytes mem (a + 8) 4) ^^^ load_32_n bo (load_bytes mem (b + 8) 4)) ++
      store_32_n bo
        (load_32_n bo (load_bytes mem (a + 12) 4) ^^^
          load_32_n bo (load_bytes mem (b + 12) 4)) := by
  have h16 : List.range 16 = [0, 1, 2, 3, 4, 5, 6, 7, 8, 9, 10, 11, 12, 13, 14, 15] := by
    decide
  have h4 : List.range 4 = [0, 1, 2, 3] := by decide
  have hr : List.range (BLOCK_SIZE / 4) = [0, 1, 2, 3] := by decide
  cases bo <;>
  simp only [xor_128, hr, load_bytes, h16, h4, List.map_cons, List.map_nil, List.foldl_cons,
    List.foldl_nil, List.nil_append, Nat.zero_mul, Nat.one_mul, Nat.reduceMul, List.drop_zero,
    List.drop_succ_cons, load_32_n, List.getD_cons_zero, List.getD_cons_succ, Nat.add_assoc,
    Nat.reduceAdd, Nat.add_zero]

/-- What `xor_128(a, b, out)` does to a memory when `out` is away from `a` and
`b` or coincides with one of them: the 16 bytes at `out` become what the
value-level `xor_128` computes from the bytes at `a` and `b` before the call,
and no byte outside `out .. out + 15` is written. -/
theorem xor_128_mem_spec (bo : ByteOrder) (mem : Nat → Nat) (a b out : Nat)
    (ha : a + 16 ≤ out ∨ out + 16 ≤ a ∨ a = out)
    (hb : b + 16 ≤ out ∨ out + 16 ≤ b ∨ b = out) :
    load_bytes (xor_128_mem bo mem a b out) out 16 =
        xor_128 bo (load_bytes mem a 16) (load_bytes mem b 16) ∧
      ∀ q, q < out ∨ out + 16 ≤ q → xor_128_mem bo mem a b out q = mem q := by
  have hr : List.range (BLOCK_SIZE / 4) = [0, 1, 2, 3] := by decide
  have hlen := store_32_n_length bo
  simp only [xor_128_mem, hr, List.foldl_cons, List.foldl_nil, Nat.zero_mul, Nat.one_mul,
    Nat.reduceMul, Nat.add_zero]
  constructor
  · rw [xor_128_load, load_bytes_16]
    simp (disch := first
        | exact store_32_n_length _ _
        | (simp only [store_32_n_length]; omega)) only
      [load_store_disjoint, load_store_same_len]
  · intro q hq
    rw [store_bytes_frame _ _ _ _ (by rw [hlen]; omega),
      store_bytes_frame _ _ _ _ (by rw [hlen]; omega),
      store_bytes_frame _ _ _ _ (by rw [hlen]; omega),
      store_bytes_frame _ _ _ _ (by rw [hlen]; omega)]

theorem load_bytes_getD (mem : Nat → Nat) (p n i : Nat) (hi : i < n) :
    (load_bytes mem p n).getD i 0 = mem (p + i) := by
  unfold load_bytes
  rw [List.getD_eq_getElem?_getD, List.getElem?_map, List.getElem?_range hi]
  rfl

theorem xor_bytes_getD (a b : List Nat) (i : Nat) (ha : i < a.length) (hb : i < b.length) :
    (xor_bytes a b).getD i 0 = a.getD i 0 ^^^ b.getD i 0 := by
  have hx : i < (xor_bytes a b).length := by
    simp only [xor_bytes, List.length_zipWith]; omega
  rw [List.getD_eq_getElem?_getD, List.getD_eq_getElem?_getD, List.getD_eq_getElem?_getD,
    List.getElem?_eq_getElem hx, List.getElem?_eq_getElem ha, List.getElem?_eq_getElem hb]
  simp [xor_bytes]

/-! ## Claims -/

/-- C1. For a provider of block size 16 whose `cbc_mac` under the given key
always succeeds with `E (block XOR iv)` (an absent `iv` being the zero block),
`E` mapping into 16-byte blocks, a well-formed segment list whose signed
bytes `M` number fewer than `2 ^ 32 - 15`, and an output buffer of at least 16
bytes, the driver returns `0` and writes the tag AES-CMAC of RFC 4493 computes
over `E` and `M`. -/
theorem cmac_rfc4493 (bo : ByteOrder) (ctp : krb5_cksumtypes) (key : krb5_key)
    (usage : Int) (data : List krb5_crypto_iov) (output : krb5_data) (stack : List Nat)
    (E : List Nat → List Nat)
    (cbc_mac : cbc_mac_fn) (hcm : ctp.enc.cbc_mac = some cbc_mac)
    (hbs : ctp.enc.block_size = BLOCK_SIZE)
    (hE : ∀ b, is_block (E b))
    (hprov : ∀ block ivec,
      cbc_mac key block ivec 16 = (0, E (xor_bytes block (ivec.getD const_Zero)), 16))
    (hwf : well_formed data)
    (hbytes : ∀ x ∈ signed_bytes data, x < 256)
    (hlen : (signed_bytes data).length < 2 ^ 32 - 15)
    (hcap : 16 ≤ output.length) :
    (krb5int_cmac_checksum bo ctp key usage data output stack).outcome = .returned 0 ∧
      (krb5int_cmac_checksum bo ctp key usage data output stack).output =
        { length := 16,
          data := rfc_cmac E (signed_bytes data) ++ output.data.drop 16 } := by
  have hok : ∀ block ivec, (cbc_mac key block ivec 16).1 = 0 := by
    intro block ivec; rw [hprov]
  have hkeep : ∀ block ivec, (cbc_mac key block ivec 16).2.2 = 16 := by
    intro block ivec; rw [hprov]
  have hdrv :=
    cmac_of_provider_ok_16 bo ctp key usage data output stack cbc_mac hcm hbs hok hkeep
  have hsl : signed_length data = (signed_bytes data).length := by
    rw [signed_length_eq, signed_total_eq_length _ hwf, Nat.mod_eq_of_lt (by omega)]
  obtain ⟨hK1, hK2, hb1, hb2⟩ := generate_subkey_rfc bo E cbc_mac key hE hprov
  have hn : block_count (signed_length data) = spec_block_count (signed_bytes data).length := by
    rw [hsl]; exact block_count_eq_spec _ hlen
  have hbound : 16 * (spec_block_count (signed_bytes data).length - 1) ≤
      (signed_bytes data).length := by
    unfold spec_block_count
    split_ifs <;> omega
  obtain ⟨hY, hcons, hYlen, hdlen⟩ := block_loop_rfc E cbc_mac key data hE hprov
    (spec_block_count (signed_bytes data).length - 1)
    { ret := 0, Y := List.replicate BLOCK_SIZE 0, d_length := BLOCK_SIZE, input := stack,
      iov_state := IOV_BLOCK_STATE_INIT, calls := (generate_subkey bo cbc_mac key).calls }
    (by simp [BLOCK_SIZE]) rfl (by simpa [IOV_BLOCK_STATE_INIT] using hbound)
  have hle : loop_exit bo cbc_mac key data stack =
      block_loop cbc_mac key data (spec_block_count (signed_bytes data).length - 1)
        { ret := 0, Y := List.replicate BLOCK_SIZE 0, d_length := BLOCK_SIZE, input := stack,
          iov_state := IOV_BLOCK_STATE_INIT,
          calls := (generate_subkey bo cbc_mac key).calls } := by
    unfold loop_exit; rw [hn]
  rw [← hle] at hY hcons hYlen hdlen
  simp only [IOV_BLOCK_STATE_INIT, Nat.zero_add, List.drop_zero, BLOCK_SIZE] at hY hcons
  -- the final chunk
  obtain ⟨tail, hfc⟩ : ∃ tail, final_chunk bo cbc_mac key data stack =
      ((signed_bytes data).drop (16 * (spec_block_count (signed_bytes data).length - 1))).take
        16 ++ tail := by
    refine ⟨(loop_exit bo cbc_mac key data stack).input.drop
      (((signed_bytes data).drop
        (16 * (spec_block_count (signed_bytes data).length - 1))).take 16).length, ?_⟩
    unfold final_chunk krb5int_c_iov_get_block
    simp only [hcons, BLOCK_SIZE]
  -- the tag
  have htag : (final_call bo cbc_mac key data stack).out = rfc_cmac E (signed_bytes data) := by
    simp only [final_call, hdlen, hprov, Option.getD_some, M_last, hsl, hfc, hK1, hK2, hY,
      BLOCK_SIZE]
    unfold rfc_cmac
    simp only
    by_cases hflag : (signed_bytes data).length ≠ 0 ∧ (signed_bytes data).length % 16 = 0
    · have hcnt : spec_block_count (signed_bytes data).length =
          (signed_bytes data).length / 16 := by
        unfold spec_block_count
        rw [if_neg hflag.1]; omega
      have hfull : ((signed_bytes data).drop
          (16 * (spec_block_count (signed_bytes data).length - 1))).take 16 =
          (signed_bytes data).drop
            (16 * (spec_block_count (signed_bytes data).length - 1)) := by
        apply List.take_of_length_le
        rw [List.length_drop, hcnt]; omega
      have hblk : is_block ((signed_bytes data).drop
          (16 * (spec_block_count (signed_bytes data).length - 1))) := by
        refine ⟨by rw [List.length_drop, hcnt]; omega, ?_⟩
        intro x hx
        exact hbytes x (List.mem_of_mem_drop hx)
      rw [if_pos ((last_block_flag_iff _ (by omega)).mpr hflag), if_pos hflag, hfull,
        xor_128_append bo _ _ _ hblk hb1, xor_bytes_comm, ← xor_bytes_assoc]
    · have hshort : ((signed_bytes data).drop
          (16 * (spec_block_count (signed_bytes data).length - 1))).length =
          (signed_bytes data).length % 16 := by
        rw [List.length_drop]
        unfold spec_block_count
        split_ifs <;> omega
      have hfull : ((signed_bytes data).drop
          (16 * (spec_block_count (signed_bytes data).length - 1))).take 16 =
          (signed_bytes data).drop
            (16 * (spec_block_count (signed_bytes data).length - 1)) := by
        apply List.take_of_length_le
        rw [hshort]; omega
      have hpad := padding_eq_rfc_pad
        ((signed_bytes data).drop (16 * (spec_block_count (signed_bytes data).length - 1)))
        tail (by rw [hshort]; omega)
      rw [hshort] at hpad
      have hblk := is_block_rfc_pad
        ((signed_bytes data).drop (16 * (spec_block_count (signed_bytes data).length - 1)))
        (by rw [hshort]; omega) (fun x hx => hbytes x (List.mem_of_mem_drop hx))
      rw [if_neg (fun h => hflag ((last_block_flag_iff _ (by omega)).mp h)), if_neg hflag,
        hfull, hpad, xor_128_eq_xor_bytes bo _ _ hblk hb2, xor_bytes_comm, ← xor_bytes_assoc]
  have hcap' : output.length ≥ 16 := hcap
  have htake : (rfc_cmac E (signed_bytes data)).take 16 =
      rfc_cmac E (signed_bytes data) := by
    apply List.take_of_length_le
    rw [← htag]
    simp only [final_call, hdlen, hprov]
    rw [(hE _).1]
  rw [hdrv, if_neg (not_not.mpr hcap'), htag, htake]
  exact ⟨rfl, rfl⟩

/-- Witness of C1: a 40-byte message in two signed segments around a segment
not flagged for signing, under the toy provider. -/
theorem cmac_rfc4493_witness :
    toy_enc.block_size = BLOCK_SIZE ∧
    well_formed [sign_seg (List.range 7), skip_seg [9, 9], sign_seg (List.range' 7 33)] ∧
    signed_bytes [sign_seg (List.range 7), skip_seg [9, 9], sign_seg (List.range' 7 33)] =
      List.range 40 ∧
    rfc_cmac toy_E (List.range 40) =
      [215, 115, 239, 79, 111, 227, 47, 95, 143, 48, 129, 214, 35, 156, 120, 40] ∧
    (krb5int_cmac_checksum .big ⟨toy_enc⟩ [1] 0
        [sign_seg (List.range 7), skip_seg [9, 9], sign_seg (List.range' 7 33)]
        (out_buf 20) const_Zero).outcome = .returned 0 ∧
    (krb5int_cmac_checksum .big ⟨toy_enc⟩ [1] 0
        [sign_seg (List.range 7), skip_seg [9, 9], sign_seg (List.range' 7 33)]
        (out_buf 20) const_Zero).output =
      { length := 16,
        data := rfc_cmac toy_E
            (signed_bytes
              [sign_seg (List.range 7), skip_seg [9, 9], sign_seg (List.range' 7 33)]) ++
          (out_buf 20).data.drop 16 } :=
  ⟨by decide, by decide, by decide, by decide,
    cmac_rfc4493 .big ⟨toy_enc⟩ [1] 0
      [sign_seg (List.range 7), skip_seg [9, 9], sign_seg (List.range' 7 33)]
      (out_buf 20) const_Zero toy_E toy_cbc_mac rfl (by decide) is_block_toy_E
      (fun _ _ => rfl)
      (by decide) (by decide) (by decide) (by decide)⟩

/-- C2, as stated, fails: a provider of block size 8 that supplies no
`cbc_mac` stops the driver at the assertion of line 174, which precedes the
block-size test; nothing is returned, `KRB5_BAD_MSIZE` included. -/
theorem bad_block_size_without_cbc_mac :
    toy_enc_no_mac.block_size ≠ BLOCK_SIZE ∧
    (krb5int_cmac_checksum .big ⟨toy_enc_no_mac⟩ [7] 0 [sign_seg [1, 2, 3]] (out_buf 16)
        const_Zero).outcome = .assert_failed 174 ∧
    (krb5int_cmac_checksum .big ⟨toy_enc_no_mac⟩ [7] 0 [sign_seg [1, 2, 3]] (out_buf 16)
        const_Zero).outcome ≠ .returned KRB5_BAD_MSIZE := by
  decide

/-- C2, as amended. A provider that supplies `cbc_mac` and whose block size is
not 16 makes the driver return `KRB5_BAD_MSIZE` (a non-zero code) without any
`cbc_mac` invocation and with the output buffer as it was. -/
theorem bad_block_size_rejected (bo : ByteOrder) (ctp : krb5_cksumtypes) (key : krb5_key)
    (usage : Int) (data : List krb5_crypto_iov) (output : krb5_data) (stack : List Nat)
    (hcm : ctp.enc.cbc_mac ≠ none)
    (h : ctp.enc.block_size ≠ BLOCK_SIZE) :
    (krb5int_cmac_checksum bo ctp key usage data output stack).outcome =
        .returned KRB5_BAD_MSIZE ∧
      KRB5_BAD_MSIZE ≠ 0 ∧
      (krb5int_cmac_checksum bo ctp key usage data output stack).calls = [] ∧
      (krb5int_cmac_checksum bo ctp key usage data output stack).output = output := by
  obtain ⟨cbc_mac, hsome⟩ := Option.ne_none_iff_exists'.mp hcm
  rw [krb5int_cmac_checksum_eq bo ctp key usage data output stack cbc_mac hsome, if_pos h]
  exact ⟨rfl, by decide, rfl, rfl⟩

/-- Witness of C2 as amended: a provider of block size 8 that supplies
`cbc_mac`. -/
theorem bad_block_size_rejected_witness :
    toy_enc_des.cbc_mac ≠ none ∧
    toy_enc_des.block_size ≠ BLOCK_SIZE ∧
    (krb5int_cmac_checksum .big ⟨toy_enc_des⟩ [7] 0 [sign_seg [1, 2, 3]] (out_buf 16)
        const_Zero).outcome = .returned KRB5_BAD_MSIZE ∧
    KRB5_BAD_MSIZE ≠ 0 ∧
    (krb5int_cmac_checksum .big ⟨toy_enc_des⟩ [7] 0 [sign_seg [1, 2, 3]] (out_buf 16)
        const_Zero).calls = [] ∧
    (krb5int_cmac_checksum .big ⟨toy_enc_des⟩ [7] 0 [sign_seg [1, 2, 3]] (out_buf 16)
        const_Zero).output = out_buf 16 :=
  ⟨by simp [toy_enc_des], by decide,
    bad_block_size_rejected .big ⟨toy_enc_des⟩ [7] 0 [sign_seg [1, 2, 3]] (out_buf 16)
      const_Zero (by simp [toy_enc_des]) (by decide)⟩

/-- C3. With a provider of block size 16, an invocation of `cbc_mac` that
returns a non-zero code is the last invocation the driver makes, and the
driver returns exactly that code; every invocation before it returned `0`, and
the code is what the provider's `cbc_mac` answered on the recorded arguments. -/
theorem provider_error_propagated (bo : ByteOrder) (ctp : krb5_cksumtypes) (key : krb5_key)
    (usage : Int) (data : List krb5_crypto_iov) (output : krb5_data) (stack : List Nat)
    (pre post : List cbc_mac_call) (c : cbc_mac_call)
    (hbs : ctp.enc.block_size = BLOCK_SIZE)
    (htrace : (krb5int_cmac_checksum bo ctp key usage data output stack).calls =
      pre ++ c :: post)
    (hc : c.ret ≠ 0) :
    post = [] ∧
      (krb5int_cmac_checksum bo ctp key usage data output stack).outcome = .returned c.ret ∧
      (∀ c' ∈ pre, c'.ret = 0) ∧
      ∃ cbc_mac, ctp.enc.cbc_mac = some cbc_mac ∧
        c.ret = (cbc_mac key c.data c.ivec c.length).1 := by
  cases hcm : ctp.enc.cbc_mac with
  | none =>
    rw [krb5int_cmac_checksum_null _ _ _ _ _ _ _ hcm] at htrace
    simp at htrace
  | some cbc_mac =>
    obtain ⟨pre', c', hcalls, hpre, hbad, _⟩ :=
      cmac_trace_shape bo ctp key usage data output stack cbc_mac hcm hbs
    rw [hcalls] at htrace
    obtain ⟨h1, h2, h3⟩ :=
      split_at_last (fun x : cbc_mac_call => x.ret = 0) htrace.symm hpre hc
    subst h1 h2 h3
    refine ⟨rfl, ?_, hpre, cbc_mac, rfl, ?_⟩
    · rw [hbad hc]
    · have hf := cmac_faithful bo ctp key usage data output stack cbc_mac hcm
      rw [hcalls] at hf
      exact (hf c (by simp)).1

/-- Witness of C3: the provider fails on the second chained call; the trace
stops there and code `5` is returned. -/
theorem provider_error_propagated_witness :
    toy_enc_failing.block_size = BLOCK_SIZE ∧
    (krb5int_cmac_checksum .little ⟨toy_enc_failing⟩ [1] 0 fail_data (out_buf 16)
        const_Zero).calls.length = 3 ∧
    (krb5int_cmac_checksum .little ⟨toy_enc_failing⟩ [1] 0 fail_data (out_buf 16)
        const_Zero).outcome = .returned 5 :=
  ⟨by decide, by decide,
    (provider_error_propagated .little ⟨toy_enc_failing⟩ [1] 0 fail_data (out_buf 16)
      const_Zero
      [{ data := [0, 0, 0, 0, 0, 0, 0, 0, 0, 0, 0, 0, 0, 0, 0, 0], ivec := none,
         length := 16, ret := 0,
         out := [200, 201, 202, 203, 204, 205, 206, 207, 208, 209, 210, 211, 212, 213,
                 214, 215],
         out_length := 16 },
       { data := [0, 1, 2, 3, 4, 5, 6, 7, 8, 9, 10, 11, 12, 13, 14, 15],
         ivec := some [0, 0, 0, 0, 0, 0, 0, 0, 0, 0, 0, 0, 0, 0, 0, 0],
         length := 16, ret := 0,
         out := [200, 206, 212, 218, 224, 230, 236, 242, 248, 254, 4, 10, 16, 22, 28, 34],
         out_length := 16 }]
      []
      { data := [238, 0, 1, 2, 3, 4, 5, 6, 7, 8, 9, 10, 11, 12, 13, 14],
        ivec := some [200, 206, 212, 218, 224, 230, 236, 242, 248, 254, 4, 10, 16, 22, 28,
                      34],
        length := 16,
        ret := 5,
        out := [200, 206, 212, 218, 224, 230, 236, 242, 248, 254, 4, 10, 16, 22, 28, 34],
        out_length := 16 }
      (by decide) (by decide) (by decide)).2.1⟩

/-- C4. Whenever the driver returns a non-zero code, the caller's output
buffer, length field and bytes, is as it was before the call. -/
theorem no_partial_tag_on_error (bo : ByteOrder) (ctp : krb5_cksumtypes) (key : krb5_key)
    (usage : Int) (data : List krb5_crypto_iov) (output : krb5_data) (stack : List Nat)
    (e : Int)
    (h : (krb5int_cmac_checksum bo ctp key usage data output stack).outcome = .returned e)
    (he : e ≠ 0) :
    (krb5int_cmac_checksum bo ctp key usage data output stack).output = output := by
  cases hcm : ctp.enc.cbc_mac with
  | none => rw [krb5int_cmac_checksum_null _ _ _ _ _ _ _ hcm]
  | some cbc_mac =>
    rw [krb5int_cmac_checksum_eq bo ctp key usage data output stack cbc_mac hcm] at h ⊢
    split_ifs at h ⊢ <;> first | rfl | (simp only [Outcome.returned.injEq] at h; omega)

/-- Witness of C4: the provider fails midway and the output buffer is as
passed. -/
theorem no_partial_tag_on_error_witness :
    (krb5int_cmac_checksum .little ⟨toy_enc_failing⟩ [1] 0 fail_data (out_buf 16)
        const_Zero).outcome = .returned 5 ∧
    (krb5int_cmac_checksum .little ⟨toy_enc_failing⟩ [1] 0 fail_data (out_buf 16)
        const_Zero).output = out_buf 16 :=
  ⟨by decide,
    no_partial_tag_on_error .little ⟨toy_enc_failing⟩ [1] 0 fail_data (out_buf 16)
      const_Zero 5 (by decide) (by decide)⟩

/-- C5. Two well-formed segment lists whose segments flagged for signing
concatenate, in list order, to the same byte string give the same result:
same status, same tag, same provider invocations. -/
theorem segment_splitting_invariance (bo : ByteOrder) (ctp : krb5_cksumtypes)
    (key : krb5_key) (usage : Int) (data₁ data₂ : List krb5_crypto_iov)
    (output : krb5_data) (stack : List Nat)
    (hwf₁ : well_formed data₁) (hwf₂ : well_formed data₂)
    (hsame : signed_bytes data₁ = signed_bytes data₂) :
    krb5int_cmac_checksum bo ctp key usage data₁ output stack =
      krb5int_cmac_checksum bo ctp key usage data₂ output stack := by
  apply cmac_congr _ _ _ _ _ _ _ _ _ hsame
  rw [signed_length_eq, signed_length_eq, signed_total_eq_length _ hwf₁,
    signed_total_eq_length _ hwf₂, hsame]

/-- Witness of C5: a 40-byte message, whole and cut into four segments, one of
them empty and one not flagged for signing. -/
theorem segment_splitting_invariance_witness :
    well_formed [sign_seg (List.range 40)] ∧
    well_formed [sign_seg (List.range 7), skip_seg [9, 9], sign_seg [],
      sign_seg (List.range' 7 33)] ∧
    signed_bytes [sign_seg (List.range 40)] =
      signed_bytes [sign_seg (List.range 7), skip_seg [9, 9], sign_seg [],
        sign_seg (List.range' 7 33)] ∧
    krb5int_cmac_checksum .big ⟨toy_enc⟩ [1] 0 [sign_seg (List.range 40)] (out_buf 16)
        const_Zero =
      krb5int_cmac_checksum .big ⟨toy_enc⟩ [1] 0
        [sign_seg (List.range 7), skip_seg [9, 9], sign_seg [], sign_seg (List.range' 7 33)]
        (out_buf 16) const_Zero :=
  ⟨by decide, by decide, by decide,
    segment_splitting_invariance .big ⟨toy_enc⟩ [1] 0 [sign_seg (List.range 40)]
      [sign_seg (List.range 7), skip_seg [9, 9], sign_seg [], sign_seg (List.range' 7 33)]
      (out_buf 16) const_Zero (by decide) (by decide) (by decide)⟩

/-- C6. Two segment lists of equal length that agree, segment by segment, on
the flag and, for the segments flagged for signing, on the length and the
bytes, give the same result, whatever the other segments hold. -/
theorem unsigned_bytes_noninterference (bo : ByteOrder) (ctp : krb5_cksumtypes)
    (key : krb5_key) (usage : Int) (data₁ data₂ : List krb5_crypto_iov)
    (output : krb5_data) (stack : List Nat)
    (h : List.Forall₂ same_signed data₁ data₂) :
    krb5int_cmac_checksum bo ctp key usage data₁ output stack =
      krb5int_cmac_checksum bo ctp key usage data₂ output stack := by
  obtain ⟨h1, h2⟩ := same_signed_lists data₁ data₂ h
  apply cmac_congr _ _ _ _ _ _ _ _ _ h2
  rw [signed_length_eq, signed_length_eq, h1]

/-- Witness of C6: two lists that differ only in the segment not flagged for
signing. -/
theorem unsigned_bytes_noninterference_witness :
    krb5int_cmac_checksum .little ⟨toy_enc⟩ [1] 0
        [sign_seg [1, 2, 3], skip_seg [7, 7], sign_seg (List.range 20)] (out_buf 16)
        const_Zero =
      krb5int_cmac_checksum .little ⟨toy_enc⟩ [1] 0
        [sign_seg [1, 2, 3], skip_seg [8, 8, 8, 8], sign_seg (List.range 20)] (out_buf 16)
        const_Zero :=
  unsigned_bytes_noninterference .little ⟨toy_enc⟩ [1] 0
    [sign_seg [1, 2, 3], skip_seg [7, 7], sign_seg (List.range 20)]
    [sign_seg [1, 2, 3], skip_seg [8, 8, 8, 8], sign_seg (List.range 20)] (out_buf 16)
    const_Zero
    (List.Forall₂.cons (by decide)
      (List.Forall₂.cons (by decide) (List.Forall₂.cons (by decide) List.Forall₂.nil)))

/-- C7 fails on the code: for two signed segments of `2 ^ 31` bytes each the
signed length is `2 ^ 32`, a non-zero multiple of 16, but the `unsigned int`
sum of line 183 wraps around to `0`; the driver takes the message for an
empty one and feeds `padding(final chunk, 0) XOR K2` to the last `cbc_mac`
invocation, not `final chunk XOR K1`. The whole result, tag included, is that
of the empty message. -/
theorem final_block_mode_wraps :
    well_formed wrap_data ∧
    signed_total wrap_data = 4294967296 ∧
    (signed_total wrap_data ≠ 0 ∧ signed_total wrap_data % 16 = 0) ∧
    signed_length wrap_data = 0 ∧
    ((krb5int_cmac_checksum .big ⟨toy_enc⟩ [1] 0 wrap_data (out_buf 16)
      const_Zero).calls.getLast?).map (fun c => c.data) =
      some (xor_128 .big (padding (final_chunk .big toy_cbc_mac [1] wrap_data const_Zero) 0)
        (generate_subkey .big toy_cbc_mac [1]).K2) ∧
    ((krb5int_cmac_checksum .big ⟨toy_enc⟩ [1] 0 wrap_data (out_buf 16)
      const_Zero).calls.getLast?).map (fun c => c.data) ≠
      some (xor_128 .big (final_chunk .big toy_cbc_mac [1] wrap_data const_Zero)
        (generate_subkey .big toy_cbc_mac [1]).K1) ∧
    krb5int_cmac_checksum .big ⟨toy_enc⟩ [1] 0 wrap_data (out_buf 16) const_Zero =
      krb5int_cmac_checksum .big ⟨toy_enc⟩ [1] 0 [] (out_buf 16) const_Zero := by
  refine ⟨?_, by decide, by decide, by decide, by decide, by decide, by decide⟩
  intro piov hp _
  simp only [wrap_data, List.mem_cons, List.mem_singleton, List.not_mem_nil, or_false,
    or_self] at hp
  subst hp
  simp only [List.length_replicate, le_refl]

/-- The final-block mode as the driver computes it. With a provider of block
size 16 that never fails, the block fed to the last `cbc_mac` invocation is
`final chunk XOR K1`, unpadded, when the `unsigned int` sum of the signed
lengths (line 183) is a non-zero multiple of 16, and
`padding(final chunk, length mod 16) XOR K2` for every other value of that
sum, zero included. That sum is the true signed length whenever the latter is
below `2 ^ 32`. -/
theorem final_block_mode (bo : ByteOrder) (ctp : krb5_cksumtypes) (key : krb5_key)
    (usage : Int) (data : List krb5_crypto_iov) (output : krb5_data) (stack : List Nat)
    (cbc_mac : cbc_mac_fn) (hcm : ctp.enc.cbc_mac = some cbc_mac)
    (hbs : ctp.enc.block_size = BLOCK_SIZE)
    (hok : ∀ block ivec length, (cbc_mac key block ivec length).1 = 0) :
    ((krb5int_cmac_checksum bo ctp key usage data output stack).calls.getLast?).map
        (fun c => c.data) =
      some
        (if signed_length data ≠ 0 ∧ signed_length data % 16 = 0 then
          xor_128 bo (final_chunk bo cbc_mac key data stack) (generate_subkey bo cbc_mac key).K1
        else
          xor_128 bo
            (padding (final_chunk bo cbc_mac key data stack)
              ((signed_length data % 16 : Nat) : Int))
            (generate_subkey bo cbc_mac key).K2) ∧
    (signed_total data < 2 ^ 32 → signed_length data = signed_total data) := by
  refine ⟨?_, fun h => by rw [signed_length_eq, Nat.mod_eq_of_lt h]⟩
  have hcalls : (krb5int_cmac_checksum bo ctp key usage data output stack).calls =
      (loop_exit bo cbc_mac key data stack).calls ++ [final_call bo cbc_mac key data stack] := by
    rw [(cmac_of_provider_ok bo ctp key usage data output stack cbc_mac hcm hbs hok).1]
    split_ifs <;> rfl
  rw [hcalls, List.getLast?_concat]
  simp only [Option.map_some', final_call, M_last, BLOCK_SIZE]
  by_cases hf : last_block_flag (signed_length data) = true
  · rw [if_pos hf, if_pos ((last_block_flag_iff _ (signed_length_lt data)).mp hf)]
  · rw [if_neg hf, if_neg (fun h => hf ((last_block_flag_iff _ (signed_length_lt data)).mpr h))]

/-- The final-block mode on a 40-byte message: the padding path with `K2`. -/
theorem final_block_mode_witness :
    toy_enc.block_size = BLOCK_SIZE ∧
    ((krb5int_cmac_checksum .big ⟨toy_enc⟩ [1] 0 [sign_seg (List.range 40)] (out_buf 20)
        const_Zero).calls.getLast?).map (fun c => c.data) =
      some [3, 6, 9, 12, 23, 18, 29, 24, 195, 71, 75, 79, 83, 87, 90, 213] ∧
    signed_length [sign_seg (List.range 40)] = signed_total [sign_seg (List.range 40)] :=
  ⟨by decide,
    (final_block_mode .big ⟨toy_enc⟩ [1] 0 [sign_seg (List.range 40)] (out_buf 20)
      const_Zero toy_cbc_mac rfl (by decide) (fun _ _ _ => rfl)).1.trans (by decide),
    (final_block_mode .big ⟨toy_enc⟩ [1] 0 [sign_seg (List.range 40)] (out_buf 20)
      const_Zero toy_cbc_mac rfl (by decide) (fun _ _ _ => rfl)).2 (by decide)⟩

/-- C8, as stated, fails: a provider of block size 16 whose `cbc_mac` always
succeeds but leaves 4 in `output->length` makes the driver, given an output
buffer of 20 bytes, return `0` and report the length 4, not 16: line 236
stores `d.length`, which the provider was handed by pointer. -/
theorem output_length_not_block_size :
    toy_enc_short.block_size = BLOCK_SIZE ∧
    (∀ key block ivec length, (toy_cbc_mac_length 4 key block ivec length).1 = 0) ∧
    16 ≤ (out_buf 20).length ∧
    (krb5int_cmac_checksum .big ⟨toy_enc_short⟩ [1] 0 [sign_seg (List.range 40)] (out_buf 20)
        const_Zero).outcome = .returned 0 ∧
    (krb5int_cmac_checksum .big ⟨toy_enc_short⟩ [1] 0 [sign_seg (List.range 40)] (out_buf 20)
        const_Zero).output.length = 4 ∧
    (krb5int_cmac_checksum .big ⟨toy_enc_short⟩ [1] 0 [sign_seg (List.range 40)] (out_buf 20)
        const_Zero).output.length ≠ 16 :=
  ⟨by decide, fun _ _ _ _ => rfl, by decide, by decide, by decide, by decide⟩

/-- C8, as amended. With a provider of block size 16 whose `cbc_mac`, handed
an output descriptor of 16 bytes, succeeds and leaves `output->length` at 16,
and an output buffer announcing at least 16 bytes, the driver returns `0` and
the output's length field is exactly 16 afterwards. -/
theorem output_length_is_block_size (bo : ByteOrder) (ctp : krb5_cksumtypes)
    (key : krb5_key) (usage : Int) (data : List krb5_crypto_iov) (output : krb5_data)
    (stack : List Nat)
    (cbc_mac : cbc_mac_fn) (hcm : ctp.enc.cbc_mac = some cbc_mac)
    (hbs : ctp.enc.block_size = BLOCK_SIZE)
    (hok : ∀ block ivec, (cbc_mac key block ivec 16).1 = 0)
    (hkeep : ∀ block ivec, (cbc_mac key block ivec 16).2.2 = 16)
    (hcap : 16 ≤ output.length) :
    (krb5int_cmac_checksum bo ctp key usage data output stack).outcome = .returned 0 ∧
      (krb5int_cmac_checksum bo ctp key usage data output stack).output.length = 16 := by
  rw [cmac_of_provider_ok_16 bo ctp key usage data output stack cbc_mac hcm hbs hok hkeep]
  have hcap' : output.length ≥ 16 := hcap
  rw [if_neg (not_not.mpr hcap')]
  exact ⟨rfl, rfl⟩

/-- Witness of C8 as amended: an output buffer announcing 20 bytes reports 16
after the call. -/
theorem output_length_is_block_size_witness :
    toy_enc.block_size = BLOCK_SIZE ∧ 16 ≤ (out_buf 20).length ∧
    (krb5int_cmac_checksum .big ⟨toy_enc⟩ [1] 0 [sign_seg (List.range 40)] (out_buf 20)
        const_Zero).outcome = .returned 0 ∧
    (krb5int_cmac_checksum .big ⟨toy_enc⟩ [1] 0 [sign_seg (List.range 40)] (out_buf 20)
        const_Zero).output.length = 16 :=
  ⟨by decide, by decide,
    output_length_is_block_size .big ⟨toy_enc⟩ [1] 0 [sign_seg (List.range 40)] (out_buf 20)
      const_Zero toy_cbc_mac rfl (by decide) (fun _ _ => rfl) (fun _ _ => rfl) (by decide)⟩

/-- C9, as stated, fails: on a 40-byte message (`n = 3`) the computation
succeeds with 4 invocations of `cbc_mac`, not `n + 2 = 5`. -/
theorem invocation_count_not_n_plus_two :
    (krb5int_cmac_checksum .big ⟨toy_enc⟩ [1] 0 [sign_seg (List.range 40)] (out_buf 20)
        const_Zero).outcome = .returned 0 ∧
    spec_block_count (signed_total [sign_seg (List.range 40)]) = 3 ∧
    (krb5int_cmac_checksum .big ⟨toy_enc⟩ [1] 0 [sign_seg (List.range 40)] (out_buf 20)
        const_Zero).calls.length ≠
      spec_block_count (signed_total [sign_seg (List.range 40)]) + 2 := by
  decide

/-- C9, as amended. A checksum computation that succeeds on a signed length
below `2 ^ 32 - 15` invokes `cbc_mac` exactly `n + 1` times, `n` being
`ceil(length / 16)`, or `1` for an empty message: once for the subkeys and
once per message block. -/
theorem invocation_count_n_plus_one (bo : ByteOrder) (ctp : krb5_cksumtypes)
    (key : krb5_key) (usage : Int) (data : List krb5_crypto_iov) (output : krb5_data)
    (stack : List Nat)
    (hret : (krb5int_cmac_checksum bo ctp key usage data output stack).outcome =
      .returned 0)
    (hlen : signed_total data < 2 ^ 32 - 15) :
    (krb5int_cmac_checksum bo ctp key usage data output stack).calls.length =
      spec_block_count (signed_total data) + 1 := by
  cases hcm : ctp.enc.cbc_mac with
  | none =>
    rw [krb5int_cmac_checksum_null _ _ _ _ _ _ _ hcm] at hret
    exact absurd hret (by simp)
  | some cbc_mac =>
    have hbs : ctp.enc.block_size = BLOCK_SIZE := by
      by_contra hne
      rw [krb5int_cmac_checksum_eq bo ctp key usage data output stack cbc_mac hcm,
        if_pos hne] at hret
      simp only [Outcome.returned.injEq] at hret
      exact absurd hret (by decide)
    obtain ⟨pre, c, hcalls, _, hbad, hgood⟩ :=
      cmac_trace_shape bo ctp key usage data output stack cbc_mac hcm hbs
    have hc : c.ret = 0 := by
      by_contra hne
      rw [hbad hne] at hret
      simp only [Outcome.returned.injEq] at hret
      exact hne hret
    rw [hcalls, List.length_append, (hgood hc).1, signed_length_eq,
      Nat.mod_eq_of_lt (by omega), block_count_eq_spec _ hlen]
    rfl

/-- Witness of C9 as amended: a 40-byte message, `n = 3`, four invocations. -/
theorem invocation_count_n_plus_one_witness :
    (krb5int_cmac_checksum .big ⟨toy_enc⟩ [1] 0 [sign_seg (List.range 40)] (out_buf 20)
        const_Zero).outcome = .returned 0 ∧
    signed_total [sign_seg (List.range 40)] < 2 ^ 32 - 15 ∧
    (krb5int_cmac_checksum .big ⟨toy_enc⟩ [1] 0 [sign_seg (List.range 40)] (out_buf 20)
        const_Zero).calls.length = 3 + 1 :=
  ⟨by decide, by decide,
    invocation_count_n_plus_one .big ⟨toy_enc⟩ [1] 0 [sign_seg (List.range 40)] (out_buf 20)
      const_Zero (by decide) (by decide)⟩

/-- C10, as stated, fails in both halves: the assertion of line 234 compares
the capacity with `d.length`, which the provider was handed by pointer. With
a provider that leaves 4 there, a buffer announcing 8 bytes passes the
assertion, the driver returns `0` and writes 4 bytes; with a provider that
leaves 32 there, a buffer announcing 16 bytes fails the assertion. -/
theorem output_capacity_not_sixteen :
    (out_buf 8).length < 16 ∧
    (krb5int_cmac_checksum .big ⟨toy_enc_short⟩ [1] 0 [sign_seg (List.range 40)] (out_buf 8)
        const_Zero).outcome = .returned 0 ∧
    (krb5int_cmac_checksum .big ⟨toy_enc_short⟩ [1] 0 [sign_seg (List.range 40)] (out_buf 8)
        const_Zero).output =
      { length := 4, data := [215, 115, 239, 79, 0xAA, 0xAA, 0xAA, 0xAA] } ∧
    16 ≤ (out_buf 16).length ∧
    (krb5int_cmac_checksum .big ⟨toy_enc_long⟩ [1] 0 [sign_seg (List.range 40)] (out_buf 16)
        const_Zero).outcome = .assert_failed 234 := by
  decide

/-- C10, as amended. With a provider whose `cbc_mac`, handed an output
descriptor of 16 bytes, leaves `output->length` at 16, an output buffer
announcing fewer than 16 bytes is never reported as success and is left
untouched; with at least 16 bytes announced the capacity assertion (line 234)
does not fail. -/
theorem output_capacity_asserted (bo : ByteOrder) (ctp : krb5_cksumtypes)
    (key : krb5_key) (usage : Int) (data : List krb5_crypto_iov) (output : krb5_data)
    (stack : List Nat)
    (hkeep : ∀ cbc_mac, ctp.enc.cbc_mac = some cbc_mac →
      ∀ block ivec, (cbc_mac key block ivec 16).2.2 = 16) :
    (output.length < 16 →
      (krb5int_cmac_checksum bo ctp key usage data output stack).outcome ≠ .returned 0 ∧
      (krb5int_cmac_checksum bo ctp key usage data output stack).output = output) ∧
    (16 ≤ output.length →
      (krb5int_cmac_checksum bo ctp key usage data output stack).outcome ≠
        .assert_failed 234) := by
  cases hcm : ctp.enc.cbc_mac with
  | none =>
    rw [krb5int_cmac_checksum_null _ _ _ _ _ _ _ hcm]
    exact ⟨fun _ => ⟨by simp, rfl⟩, fun _ => by simp⟩
  | some cbc_mac =>
    rw [krb5int_cmac_checksum_eq bo ctp key usage data output stack cbc_mac hcm]
    simp only [BLOCK_SIZE, (final_call_length bo cbc_mac key data stack (hkeep cbc_mac hcm)).2]
    constructor
    · intro hlt
      have h16 : ¬ output.length ≥ 16 := by omega
      split_ifs with h1 h2 h3 h4
      · exact ⟨by simp [KRB5_BAD_MSIZE], rfl⟩
      · exact ⟨by simpa using h2, rfl⟩
      · exact ⟨by simpa using h3, rfl⟩
      · exact ⟨by simpa using h4, rfl⟩
      · exact ⟨by simp, rfl⟩
    · intro hge
      have h16 : output.length ≥ 16 := hge
      split_ifs <;> simp

/-- Witness of C10 as amended: capacity 15 stops at the assertion with the
buffer untouched, capacity 16 passes it. -/
theorem output_capacity_asserted_witness :
    ((krb5int_cmac_checksum .big ⟨toy_enc⟩ [1] 0 [sign_seg (List.range 40)] (out_buf 15)
        const_Zero).outcome ≠ .returned 0 ∧
     (krb5int_cmac_checksum .big ⟨toy_enc⟩ [1] 0 [sign_seg (List.range 40)] (out_buf 15)
        const_Zero).output = out_buf 15) ∧
    (krb5int_cmac_checksum .big ⟨toy_enc⟩ [1] 0 [sign_seg (List.range 40)] (out_buf 16)
        const_Zero).outcome ≠ .assert_failed 234 :=
  ⟨(output_capacity_asserted .big ⟨toy_enc⟩ [1] 0 [sign_seg (List.range 40)] (out_buf 15)
      const_Zero (fun _ h _ _ => by cases h; rfl)).1 (by decide),
   (output_capacity_asserted .big ⟨toy_enc⟩ [1] 0 [sign_seg (List.range 40)] (out_buf 16)
      const_Zero (fun _ h _ _ => by cases h; rfl)).2 (by decide)⟩

/-- C11. The result depends on nothing but the provider, the key, the segment
list and the announced output capacity: for a well-formed segment list, two
runs that differ in the usage argument, in what the uninitialised array
`input` holds on entry and in the bytes of the output buffer end with the
same status after the same provider invocations, and on success write the
same tag, of the same length (the `d.length` the provider left). With all
arguments equal the two runs are equal outright, the driver being a function
of its arguments. -/
theorem checksum_deterministic (bo : ByteOrder) (ctp : krb5_cksumtypes) (key : krb5_key)
    (usage usage' : Int) (data : List krb5_crypto_iov) (output output' : krb5_data)
    (stack stack' : List Nat)
    (hwf : well_formed data)
    (hs : stack.length = 16) (hs' : stack'.length = 16)
    (hcap : output.length = output'.length) :
    (krb5int_cmac_checksum bo ctp key usage data output stack).outcome =
        (krb5int_cmac_checksum bo ctp key usage' data output' stack').outcome ∧
      (krb5int_cmac_checksum bo ctp key usage data output stack).calls =
        (krb5int_cmac_checksum bo ctp key usage' data output' stack').calls ∧
      ((krb5int_cmac_checksum bo ctp key usage data output stack).outcome = .returned 0 →
        ∃ length tag,
          (krb5int_cmac_checksum bo ctp key usage data output stack).output =
            { length := length, data := tag ++ output.data.drop length } ∧
          (krb5int_cmac_checksum bo ctp key usage' data output' stack').output =
            { length := length, data := tag ++ output'.data.drop length }) := by
  rw [cmac_stack_indep bo ctp key usage' data output' stack' stack hwf (by omega) (by omega)]
  exact cmac_output_indep bo ctp key usage usage' data output output' stack hcap

/-- Witness of C11: two runs on a 40-byte message that differ in usage, in the
stale content of `input` and in the bytes of the output buffer. -/
theorem checksum_deterministic_witness :
    well_formed [sign_seg (List.range 40)] ∧
    (krb5int_cmac_checksum .big ⟨toy_enc⟩ [1] 0 [sign_seg (List.range 40)] (out_buf 20)
        const_Zero).outcome =
      (krb5int_cmac_checksum .big ⟨toy_enc⟩ [1] 7 [sign_seg (List.range 40)]
        { length := 20, data := List.range 20 } (List.replicate 16 0xFF)).outcome ∧
    (krb5int_cmac_checksum .big ⟨toy_enc⟩ [1] 0 [sign_seg (List.range 40)] (out_buf 20)
        const_Zero).calls =
      (krb5int_cmac_checksum .big ⟨toy_enc⟩ [1] 7 [sign_seg (List.range 40)]
        { length := 20, data := List.range 20 } (List.replicate 16 0xFF)).calls :=
  ⟨by decide,
    (checksum_deterministic .big ⟨toy_enc⟩ [1] 0 7 [sign_seg (List.range 40)] (out_buf 20)
      { length := 20, data := List.range 20 } const_Zero (List.replicate 16 0xFF)
      (by decide) (by decide) (by decide) (by decide)).1,
    (checksum_deterministic .big ⟨toy_enc⟩ [1] 0 7 [sign_seg (List.range 40)] (out_buf 20)
      { length := 20, data := List.range 20 } const_Zero (List.replicate 16 0xFF)
      (by decide) (by decide) (by decide) (by decide)).2.1⟩

set_option maxRecDepth 1000000 in
/-- C12. With AES-128 as the provider and the key
`2b7e151628aed2a6abf7158809cf4f3c`, the driver returns `0` and writes the tags
of the RFC 4493 test vectors for the empty message, the 16-byte, the 40-byte
and the 64-byte message, for either byte order of the word-wise XOR. -/
theorem rfc4493_test_vectors (bo : ByteOrder) :
    ((krb5int_cmac_checksum bo ⟨aes128_enc⟩ rfc_key 0 []
        (out_buf 16) const_Zero).outcome = .returned 0 ∧
     (krb5int_cmac_checksum bo ⟨aes128_enc⟩ rfc_key 0 []
        (out_buf 16) const_Zero).output =
      { length := 16
        data := [0xbb, 0x1d, 0x69, 0x29, 0xe9, 0x59, 0x37, 0x28,
                 0x7f, 0xa3, 0x7d, 0x12, 0x9b, 0x75, 0x67, 0x46] }) ∧
    ((krb5int_cmac_checksum bo ⟨aes128_enc⟩ rfc_key 0 [sign_seg (rfc_message.take 16)]
        (out_buf 16) const_Zero).outcome = .returned 0 ∧
     (krb5int_cmac_checksum bo ⟨aes128_enc⟩ rfc_key 0 [sign_seg (rfc_message.take 16)]
        (out_buf 16) const_Zero).output =
      { length := 16
        data := [0x07, 0x0a, 0x16, 0xb4, 0x6b, 0x4d, 0x41, 0x44,
                 0xf7, 0x9b, 0xdd, 0x9d, 0xd0, 0x4a, 0x28, 0x7c] }) ∧
    ((krb5int_cmac_checksum bo ⟨aes128_enc⟩ rfc_key 0 [sign_seg (rfc_message.take 40)]
        (out_buf 16) const_Zero).outcome = .returned 0 ∧
     (krb5int_cmac_checksum bo ⟨aes128_enc⟩ rfc_key 0 [sign_seg (rfc_message.take 40)]
        (out_buf 16) const_Zero).output =
      { length := 16
        data := [0xdf, 0xa6, 0x67, 0x47, 0xde, 0x9a, 0xe6, 0x30,
                 0x30, 0xca, 0x32, 0x61, 0x14, 0x97, 0xc8, 0x27] }) ∧
    ((krb5int_cmac_checksum bo ⟨aes128_enc⟩ rfc_key 0 [sign_seg rfc_message]
        (out_buf 16) const_Zero).outcome = .returned 0 ∧
     (krb5int_cmac_checksum bo ⟨aes128_enc⟩ rfc_key 0 [sign_seg rfc_message]
        (out_buf 16) const_Zero).output =
      { length := 16
        data := [0x51, 0xf0, 0xbe, 0xbf, 0x7e, 0x3b, 0x9d, 0x92,
                 0xfc, 0x49, 0x74, 0x17, 0x79, 0x36, 0x3c, 0xfe] }) := by
  cases bo <;> decide

/-- C13. When `cbc_mac` on one all-zero block with no chaining value succeeds
with the block `L`, `generate_subkey` succeeds with `K1` the doubling of `L`
and `K2` the doubling of `K1`, doubling a block `x` read as a 128-bit
big-endian integer being `(2 * x mod 2 ^ 128) XOR (0x87 if x >= 2 ^ 127 else
0)`; the XOR of `L` with `const_Zero` leaves `L` as it is. -/
theorem subkeys_are_doublings (bo : ByteOrder) (cbc_mac : cbc_mac_fn) (key : krb5_key)
    (L : List Nat)
    (hret : (cbc_mac key (List.replicate 16 0) none 16).1 = 0)
    (hcall : (cbc_mac key (List.replicate 16 0) none 16).2.1 = L)
    (hL : is_block L) :
    (generate_subkey bo cbc_mac key).ret = 0 ∧
      (generate_subkey bo cbc_mac key).K1 = rfc_dbl L ∧
      (generate_subkey bo cbc_mac key).K2 = rfc_dbl (rfc_dbl L) ∧
      block_to_nat (rfc_dbl L) =
        (2 * block_to_nat L % 2 ^ 128) ^^^ (if 2 ^ 127 ≤ block_to_nat L then 0x87 else 0) ∧
      xor_128 bo const_Zero L = L := by
  have hret' : (cbc_mac key (List.replicate BLOCK_SIZE 0) none BLOCK_SIZE).1 = 0 := hret
  have hcall' : (cbc_mac key (List.replicate BLOCK_SIZE 0) none BLOCK_SIZE).2.1 = L := hcall
  have hx : xor_128 bo const_Zero L = L := by
    rw [xor_128_eq_xor_bytes bo _ _ is_block_const_Zero hL, xor_bytes_zero_left _ hL.1]
  obtain ⟨hd1, hb1⟩ := double_block_eq_rfc_dbl bo L hL
  have hK1 : (generate_subkey bo cbc_mac key).K1 = rfc_dbl L := by
    rw [generate_subkey_K1 bo cbc_mac key hret', hcall', hx, hd1]
  rw [hd1] at hb1
  obtain ⟨hd2, _⟩ := double_block_eq_rfc_dbl bo _ hb1
  refine ⟨by rw [generate_subkey_ret, hret'], hK1, ?_, ?_, hx⟩
  · rw [generate_subkey_K2 bo cbc_mac key hret', hK1, hd2]
  · obtain ⟨hd, hb⟩ := double_block_eq_rfc_dbl bo L hL
    have hs := is_block_leftshift L hL
    have hn := block_to_nat_leftshift L hL
    have hm := msb_iff L hL
    rw [← hd]
    unfold double_block
    by_cases h : L.getD 0 0 &&& 0x80 = 0
    · have hlt := hm.mp h
      rw [if_pos h, if_neg (by omega), Nat.xor_zero, hn]
    · have hge : 2 ^ 127 ≤ block_to_nat L := by
        by_contra hc
        exact h (hm.mpr (by omega))
      rw [if_neg h, if_pos hge, xor_128_eq_xor_bytes bo _ _ hs is_block_const_Rb,
        (xor_const_Rb _ hs).2, hn]

set_option maxRecDepth 1000000 in
/-- Witness of C13, the subkeys of RFC 4493: under AES-128 with the key of the
test vectors `L` is `7df76b0c1ab899b33e42f047b91b546f`, `K1` is
`fbeed618357133667c85e08f7236a8de` and `K2` is
`f7ddac306ae266ccf90bc11ee46d513b`. -/
theorem subkeys_are_doublings_witness :
    aes128_cbc_mac rfc_key (List.replicate 16 0) none 16 =
      (0, [0x7d, 0xf7, 0x6b, 0x0c, 0x1a, 0xb8, 0x99, 0xb3,
           0x3e, 0x42, 0xf0, 0x47, 0xb9, 0x1b, 0x54, 0x6f], 16) ∧
    (generate_subkey .little aes128_cbc_mac rfc_key).K1 =
      [0xfb, 0xee, 0xd6, 0x18, 0x35, 0x71, 0x33, 0x66,
       0x7c, 0x85, 0xe0, 0x8f, 0x72, 0x36, 0xa8, 0xde] ∧
    (generate_subkey .little aes128_cbc_mac rfc_key).K2 =
      [0xf7, 0xdd, 0xac, 0x30, 0x6a, 0xe2, 0x66, 0xcc,
       0xf9, 0x0b, 0xc1, 0x1e, 0xe4, 0x6d, 0x51, 0x3b] :=
  ⟨by decide,
    (subkeys_are_doublings .little aes128_cbc_mac rfc_key
      [0x7d, 0xf7, 0x6b, 0x0c, 0x1a, 0xb8, 0x99, 0xb3,
       0x3e, 0x42, 0xf0, 0x47, 0xb9, 0x1b, 0x54, 0x6f] (by decide) (by decide)
      (by decide)).2.1.trans
      (by decide),
    (subkeys_are_doublings .little aes128_cbc_mac rfc_key
      [0x7d, 0xf7, 0x6b, 0x0c, 0x1a, 0xb8, 0x99, 0xb3,
       0x3e, 0x42, 0xf0, 0x47, 0xb9, 0x1b, 0x54, 0x6f] (by decide) (by decide)
      (by decide)).2.2.1.trans
      (by decide)⟩

/-- C14 fails on the code: for one signed segment of `2 ^ 32 - 1` bytes the
signed length is `4294967295` and `ceil(length / 16)` is `268435456`, but
`length + 15` wraps around in `unsigned int`, the driver's `n` becomes `0` and
is forced to `1`, and the driver makes no chained step at all: two `cbc_mac`
invocations, the subkey call and one final call on a padded block built from
the first 15 bytes of the message. -/
theorem block_count_wraps :
    well_formed huge_data ∧
    signed_total huge_data = 4294967295 ∧
    signed_length huge_data = 4294967295 ∧
    spec_block_count (signed_total huge_data) = 268435456 ∧
    block_count (signed_length huge_data) = 1 ∧
    (krb5int_cmac_checksum .big ⟨toy_enc⟩ [1] 0 huge_data (out_buf 16) const_Zero).outcome =
      .returned 0 ∧
    (krb5int_cmac_checksum .big ⟨toy_enc⟩ [1] 0 huge_data (out_buf 16)
      const_Zero).calls.length = 2 ∧
    ((krb5int_cmac_checksum .big ⟨toy_enc⟩ [1] 0 huge_data (out_buf 16)
      const_Zero).calls.getLast?).map (fun c => c.data) =
      some (xor_128 .big [0, 0, 0, 0, 0, 0, 0, 0, 0, 0, 0, 0, 0, 0, 0, 0x80]
        (generate_subkey .big toy_cbc_mac [1]).K2) := by
  refine ⟨?_, by decide, by decide, by decide, by decide, by decide, by decide, by decide⟩
  intro piov hp _
  simp only [huge_data, List.mem_singleton] at hp
  subst hp
  simp only [List.length_replicate, le_refl]

/-- C15. For `valid_len` from 0 to 15, `padding(last, pad, valid_len)` fills the
16 bytes of `pad` with the bytes of `last` below index `valid_len`, `0x80` at
index `valid_len` and `0x00` above. -/
theorem padding_construction (last : List Nat) (valid_len : Nat) (i : Nat)
    (hv : valid_len ≤ 15) (hi : i < 16) :
    (padding last (valid_len : Int)).length = 16 ∧
      (i < valid_len → (padding last (valid_len : Int)).getD i 0 = last.getD i 0) ∧
      (i = valid_len → (padding last (valid_len : Int)).getD i 0 = 0x80) ∧
      (valid_len < i → (padding last (valid_len : Int)).getD i 0 = 0x00) ∧
      (padding last (valid_len : Int)).getD valid_len 0 = 0x80 := by
  refine ⟨padding_length _ _, ?_, ?_, ?_, ?_⟩
  · intro h
    rw [padding_getD _ _ _ hi, if_pos (by exact_mod_cast h)]
  · intro h
    rw [padding_getD _ _ _ hi, if_neg (by omega), if_pos (by exact_mod_cast h)]
  · intro h
    rw [padding_getD _ _ _ hi, if_neg (by omega), if_neg (by omega)]
  · rw [padding_getD _ _ _ (by omega), if_neg (by omega), if_pos rfl]

/-- Witness of C15: three bytes of a block padded to 16. -/
theorem padding_construction_witness :
    padding [1, 2, 3, 4, 5, 6, 7, 8, 9, 10, 11, 12, 13, 14, 15, 16] 3 =
      [1, 2, 3, 0x80, 0, 0, 0, 0, 0, 0, 0, 0, 0, 0, 0, 0] ∧
    (padding [1, 2, 3, 4, 5, 6, 7, 8, 9, 10, 11, 12, 13, 14, 15, 16] ((3 : Nat) : Int)).getD
      3 0 = 0x80 :=
  ⟨by decide,
    (padding_construction [1, 2, 3, 4, 5, 6, 7, 8, 9, 10, 11, 12, 13, 14, 15, 16] 3 3
      (by decide) (by decide)).2.2.2.2⟩

/-- C16. For two 16-byte blocks and either byte order of `load_32_n` and
`store_32_n`, byte `i` of what the word-wise `xor_128` writes to `out` is
`a[i] XOR b[i]`, for every `i` from 0 to 15. On a memory that holds `a` away
from `out`, and `b` away from `out` or at `out` itself, the call writes these
bytes at `out` and leaves `a` as it was; it leaves `b` as it was when `b` lies
away from `out`, and also in the call `xor_128(const_Zero, L, L)` of line 116,
where `out` is `b` and `a` is the zero block. -/
theorem xor_128_bytewise (bo : ByteOrder) (a b : List Nat) (mem : Nat → Nat)
    (pa pb pout i : Nat)
    (ha : is_block a) (hb : is_block b)
    (hma : load_bytes mem pa 16 = a) (hmb : load_bytes mem pb 16 = b)
    (hda : pa + 16 ≤ pout ∨ pout + 16 ≤ pa)
    (hdb : pb + 16 ≤ pout ∨ pout + 16 ≤ pb ∨ pb = pout)
    (hi : i < 16) :
    (xor_128 bo a b).length = 16 ∧
      (xor_128 bo a b).getD i 0 = a.getD i 0 ^^^ b.getD i 0 ∧
      xor_128_mem bo mem pa pb pout (pout + i) = a.getD i 0 ^^^ b.getD i 0 ∧
      xor_128_mem bo mem pa pb pout (pa + i) = a.getD i 0 ∧
      ((pb = pout → a = const_Zero) →
        xor_128_mem bo mem pa pb pout (pb + i) = b.getD i 0) := by
  have hx := xor_128_eq_xor_bytes bo a b ha hb
  have hv : (xor_128 bo a b).getD i 0 = a.getD i 0 ^^^ b.getD i 0 := by
    rw [hx]; exact xor_bytes_getD a b i (by rw [ha.1]; exact hi) (by rw [hb.1]; exact hi)
  obtain ⟨hout, hframe⟩ := xor_128_mem_spec bo mem pa pb pout (by omega) (by omega)
  rw [hma, hmb] at hout
  have hw : xor_128_mem bo mem pa pb pout (pout + i) = (xor_128 bo a b).getD i 0 := by
    rw [← load_bytes_getD (xor_128_mem bo mem pa pb pout) pout 16 i hi, hout]
  refine ⟨by rw [hx]; exact (is_block_xor_bytes a b ha hb).1, hv, by rw [hw, hv], ?_, ?_⟩
  · rw [hframe _ (by omega), ← load_bytes_getD mem pa 16 i hi, hma]
  · intro hz
    by_cases hal : pb = pout
    · have hbo : xor_128_mem bo mem pa pb pout (pb + i) =
          xor_128_mem bo mem pa pb pout (pout + i) := by rw [hal]
      rw [hbo, hw, hx, hz hal, xor_bytes_zero_left _ hb.1]
    · rw [hframe _ (by omega), ← load_bytes_getD mem pb 16 i hi, hmb]

/-- Witness of C16 on a memory holding the bytes `0 .. 47`: byte 3 of the block
at address 0 XOR the block at address 16, written at address 32. -/
theorem xor_128_bytewise_witness :
    is_block (load_bytes (fun q => (List.range 48).getD q 0) 0 16) ∧
      xor_128_mem .big (fun q => (List.range 48).getD q 0) 0 16 32 (32 + 3) = 3 ^^^ 19 ∧
      xor_128_mem .big (fun q => (List.range 48).getD q 0) 0 16 32 (0 + 3) = 3 ∧
      xor_128_mem .big (fun q => (List.range 48).getD q 0) 0 16 32 (16 + 3) = 19 :=
  have h := xor_128_bytewise .big (load_bytes (fun q => (List.range 48).getD q 0) 0 16)
    (load_bytes (fun q => (List.range 48).getD q 0) 16 16)
    (fun q => (List.range 48).getD q 0) 0 16 32 3
    (by decide) (by decide) rfl rfl (by decide) (by decide) (by decide)
  ⟨by decide, h.2.2.1, h.2.2.2.1, h.2.2.2.2 (fun hne => absurd hne (by decide))⟩

/-- C18. The padding is injective: if `padding(a, la)` and `padding(b, lb)`
are the same block, for lengths from 0 to 15, then `la = lb` and `a` and `b`
agree on their first `la` bytes. -/
theorem padding_injective (a b : List Nat) (la lb : Nat) (hla : la ≤ 15) (hlb : lb ≤ 15)
    (h : padding a (la : Int) = padding b (lb : Int)) :
    la = lb ∧ ∀ i, i < la → a.getD i 0 = b.getD i 0 := by
  have hget : ∀ i, i < 16 →
      (padding a (la : Int)).getD i 0 = (padding b (lb : Int)).getD i 0 := by
    intro i _; rw [h]
  have hl : la = lb := by
    rcases Nat.lt_trichotomy la lb with hlt | heq | hgt
    · have e := hget lb (by omega)
      rw [padding_getD _ _ _ (by omega), padding_getD _ _ _ (by omega),
        if_neg (by omega), if_neg (by omega), if_neg (by omega), if_pos rfl] at e
      exact absurd e (by decide)
    · exact heq
    · have e := hget la (by omega)
      rw [padding_getD _ _ _ (by omega), padding_getD _ _ _ (by omega),
        if_neg (by omega), if_pos rfl, if_neg (by omega), if_neg (by omega)] at e
      exact absurd e (by decide)
  refine ⟨hl, ?_⟩
  intro i hi
  have e := hget i (by omega)
  rw [padding_getD _ _ _ (by omega), padding_getD _ _ _ (by omega),
    if_pos (by exact_mod_cast hi), if_pos (by rw [← hl]; exact_mod_cast hi)] at e
  exact e

/-- Witness of C18: two buffers that differ from index 3 on have the same
padding at length 3. -/
theorem padding_injective_witness :
    padding [1, 2, 3, 4, 5, 6, 7, 8, 9, 10, 11, 12, 13, 14, 15, 16] ((3 : Nat) : Int) =
      padding [1, 2, 3, 0, 0, 0, 0, 0, 0, 0, 0, 0, 0, 0, 0, 0] ((3 : Nat) : Int) ∧
    (3 = 3 ∧ ∀ i, i < 3 →
      [1, 2, 3, 4, 5, 6, 7, 8, 9, 10, 11, 12, 13, 14, 15, 16].getD i 0 =
        [1, 2, 3, 0, 0, 0, 0, 0, 0, 0, 0, 0, 0, 0, 0, 0].getD i 0) :=
  ⟨by decide,
    padding_injective [1, 2, 3, 4, 5, 6, 7, 8, 9, 10, 11, 12, 13, 14, 15, 16]
      [1, 2, 3, 0, 0, 0, 0, 0, 0, 0, 0, 0, 0, 0, 0, 0] 3 3 (by decide) (by decide)
      (by decide)⟩

/-- C19. The doubling step of `generate_subkey` is injective on 16-byte
blocks: `double_block x = double_block y` implies `x = y`. Consequently, of
two successful subkey derivations whose providers answered the blocks `x` and
`y`, equal `K1` force `x = y` and equal `K2` force equal `K1`. -/
theorem doubling_injective (bo : ByteOrder) (x y : List Nat)
    (hx : is_block x) (hy : is_block y) :
    (double_block bo x = double_block bo y → x = y) ∧
      ∀ (cbc_mac cbc_mac' : cbc_mac_fn) (key key' : krb5_key),
        (cbc_mac key (List.replicate 16 0) none 16).1 = 0 →
        (cbc_mac key (List.replicate 16 0) none 16).2.1 = x →
        (cbc_mac' key' (List.replicate 16 0) none 16).1 = 0 →
        (cbc_mac' key' (List.replicate 16 0) none 16).2.1 = y →
        ((generate_subkey bo cbc_mac key).K1 = (generate_subkey bo cbc_mac' key').K1 →
          x = y) ∧
        ((generate_subkey bo cbc_mac key).K2 = (generate_subkey bo cbc_mac' key').K2 →
          (generate_subkey bo cbc_mac key).K1 = (generate_subkey bo cbc_mac' key').K1) := by
  refine ⟨double_block_injective bo x y hx hy, ?_⟩
  intro cbc_mac cbc_mac' key key' hr hc hr' hc'
  have hr1 : (cbc_mac key (List.replicate BLOCK_SIZE 0) none BLOCK_SIZE).1 = 0 := hr
  have hc1 : (cbc_mac key (List.replicate BLOCK_SIZE 0) none BLOCK_SIZE).2.1 = x := hc
  have hr2 : (cbc_mac' key' (List.replicate BLOCK_SIZE 0) none BLOCK_SIZE).1 = 0 := hr'
  have hc2 : (cbc_mac' key' (List.replicate BLOCK_SIZE 0) none BLOCK_SIZE).2.1 = y := hc'
  have hzx : xor_128 bo const_Zero x = x := by
    rw [xor_128_eq_xor_bytes bo _ _ is_block_const_Zero hx, xor_bytes_zero_left _ hx.1]
  have hzy : xor_128 bo const_Zero y = y := by
    rw [xor_128_eq_xor_bytes bo _ _ is_block_const_Zero hy, xor_bytes_zero_left _ hy.1]
  have hK1 : (generate_subkey bo cbc_mac key).K1 = double_block bo x := by
    rw [generate_subkey_K1 bo cbc_mac key hr1, hc1, hzx]
  have hK1' : (generate_subkey bo cbc_mac' key').K1 = double_block bo y := by
    rw [generate_subkey_K1 bo cbc_mac' key' hr2, hc2, hzy]
  constructor
  · intro h
    rw [hK1, hK1'] at h
    exact double_block_injective bo x y hx hy h
  · intro h
    rw [generate_subkey_K2 bo cbc_mac key hr1,
      generate_subkey_K2 bo cbc_mac' key' hr2] at h
    have hb : is_block (generate_subkey bo cbc_mac key).K1 := by
      rw [hK1]; exact is_block_double_block_any bo x
    have hb' : is_block (generate_subkey bo cbc_mac' key').K1 := by
      rw [hK1']; exact is_block_double_block_any bo y
    exact double_block_injective bo _ _ hb hb' h

/-- Witness of C19: the zero block and the block `0x80, 0, ..` differ, so their
doublings differ (they are the zero block and `const_Rb`). -/
theorem doubling_injective_witness :
    is_block const_Zero ∧ is_block (0x80 :: List.replicate 15 0) ∧
      double_block .big const_Zero ≠ double_block .big (0x80 :: List.replicate 15 0) :=
  ⟨by decide, by decide, fun h =>
    absurd ((doubling_injective .big const_Zero (0x80 :: List.replicate 15 0)
      (by decide) (by decide)).1 h) (by decide)⟩

/-- C20. The function `padding` reads only the first `valid_len` bytes of its
input: two buffers that agree there are padded to the same block, for every
`valid_len` (from 0 to 15 in the driver). So on the padding path any chunk that agrees with
the final chunk on its first `length % 16` bytes gives the same `M_last`, and
for a well-formed segment list the whole run, with its tag, is the same
whatever the array `input` held on entry. -/
theorem stale_tail_independence (bo : ByteOrder) (a b : List Nat) (valid_len : Nat)
    (hab : ∀ i, i < valid_len → a.getD i 0 = b.getD i 0) :
    padding a valid_len = padding b valid_len ∧
      (∀ (cbc_mac : cbc_mac_fn) (key : krb5_key) (data : List krb5_crypto_iov)
          (stack : List Nat),
        last_block_flag (signed_length data) = false →
        signed_length data % BLOCK_SIZE = valid_len →
        (∀ i, i < valid_len →
          a.getD i 0 = (final_chunk bo cbc_mac key data stack).getD i 0) →
        xor_128 bo (padding a valid_len) (generate_subkey bo cbc_mac key).K2 =
            M_last bo cbc_mac key data stack ∧
          xor_128 bo (padding b valid_len) (generate_subkey bo cbc_mac key).K2 =
            M_last bo cbc_mac key data stack) ∧
      (∀ (ctp : krb5_cksumtypes) (key : krb5_key) (usage : Int)
          (data : List krb5_crypto_iov) (output : krb5_data) (stack stack' : List Nat),
        well_formed data → stack.length = 16 → stack'.length = 16 →
        krb5int_cmac_checksum bo ctp key usage data output stack =
          krb5int_cmac_checksum bo ctp key usage data output stack') := by
  have hp : padding a valid_len = padding b valid_len :=
    padding_congr a b valid_len (fun i hi => hab i (by omega))
  refine ⟨hp, ?_, ?_⟩
  · intro cbc_mac key data stack hflag hlen hchunk
    have hm : xor_128 bo (padding a valid_len) (generate_subkey bo cbc_mac key).K2 =
        M_last bo cbc_mac key data stack := by
      unfold M_last
      rw [hflag, hlen]
      simp only [Bool.false_eq_true, if_false]
      rw [padding_congr a (final_chunk bo cbc_mac key data stack) valid_len
        (fun i hi => hchunk i (by omega))]
    exact ⟨hm, hp ▸ hm⟩
  · intro ctp key usage data output stack stack' hwf hs hs'
    exact cmac_stack_indep bo ctp key usage data output stack stack' hwf (by omega) (by omega)

/-- Witness of C20: a three-byte chunk followed by two different stale
tails. -/
theorem stale_tail_independence_witness :
    padding ([1, 2, 3] ++ List.replicate 13 0xFF) 3 =
      padding ([1, 2, 3] ++ List.replicate 13 0x55) 3 ∧
    krb5int_cmac_checksum .big ⟨toy_enc⟩ [1] 0 [sign_seg [1, 2, 3]] (out_buf 16)
        (List.replicate 16 0xFF) =
      krb5int_cmac_checksum .big ⟨toy_enc⟩ [1] 0 [sign_seg [1, 2, 3]] (out_buf 16)
        (List.replicate 16 0x55) :=
  have h := stale_tail_independence .big ([1, 2, 3] ++ List.replicate 13 0xFF)
    ([1, 2, 3] ++ List.replicate 13 0x55) 3 (by decide)
  ⟨h.1, h.2.2 ⟨toy_enc⟩ [1] 0 [sign_seg [1, 2, 3]] (out_buf 16) (List.replicate 16 0xFF)
    (List.replicate 16 0x55) (by decide) (by decide) (by decide)⟩

end Cmac
